import Mathlib

/-!
Verification development for the dust cluster engine.

We give a shallow embedding of the node resolution / reconciliation engine
(cluster.py, EC2.py), the ssh session multiplexer (lineterm.py) and the
get/put fan-out commands (commands/getput.py), and prove the documented
properties about them.

Conventions of the embedding:
  * Python strings are Lean `String`s; Python truthiness of a string is
    non-emptiness; `None` for optional string fields is `Option.none`.
  * Code paths that raise an uncaught Python exception are modelled with
    `Option`: `none` means the operation raised.
  * Mutation of shared node objects is modelled by threading a
    `List Node` state and addressing nodes by their index in that list.
-/

/-! ## Shell glob matching

Model of `fnmatch.translate(pat)` followed by `re.compile(...).match(s)`
being truthy: an anchored shell-glob match supporting `*`, `?` and `[...]`
classes (with `!` negation and `a-b` ranges, a `]` right after `[` or `[!`
being a literal member, and an unterminated class treated as a literal
`[`). The matcher uses a fuel argument for structural recursion; each
recursive call strictly decreases pattern length + subject length, so
fuel `|pat| + |s| + 1` always suffices.
-/

/-- Scan a character-class body up to the closing bracket.
Returns the body and the remainder after the `]`, or `none` if the
class is unterminated. -/
def scanClass : List Char → Option (List Char × List Char)
  | [] => none
  | c :: cs =>
    if c = ']' then some ([], cs)
    else (scanClass cs).map (fun p => (c :: p.1, p.2))

/-- Parse a glob character class (the text after an opening `[`):
optional `!` negation, then a body whose first character may be a
literal `]`. Returns (negated, body, rest-after-class). -/
def parseCharClass (l : List Char) : Option (Bool × List Char × List Char) :=
  match l with
  | '!' :: t =>
    (match t with
     | ']' :: t2 => (scanClass t2).map (fun p => (true, ']' :: p.1, p.2))
     | _ => (scanClass t).map (fun p => (true, p.1, p.2)))
  | ']' :: t => (scanClass t).map (fun p => (false, ']' :: p.1, p.2))
  | _ => (scanClass l).map (fun p => (false, p.1, p.2))

/-- Membership of a character in a class body, with `a-b` ranges. -/
def memClass (c : Char) : List Char → Bool
  | a :: '-' :: b :: rest =>
    if a ≤ c ∧ c ≤ b then true else memClass c rest
  | a :: rest => c = a || memClass c rest
  | [] => false

/-- Fueled anchored glob match on character lists (`*`, `?`, `[...]`,
literals). -/
def gmatchF : Nat → List Char → List Char → Bool
  | 0, _, _ => false
  | _ + 1, [], s => s.isEmpty
  | fuel + 1, '*' :: ps, s =>
    gmatchF fuel ps s ||
      (match s with
       | [] => false
       | _ :: s2 => gmatchF fuel ('*' :: ps) s2)
  | fuel + 1, '?' :: ps, s =>
    (match s with
     | [] => false
     | _ :: s2 => gmatchF fuel ps s2)
  | fuel + 1, '[' :: ps, s =>
    (match parseCharClass ps with
     | some (neg, body, rest) =>
       (match s with
        | [] => false
        | c :: s2 =>
          (if neg then !(memClass c body) else memClass c body) && gmatchF fuel rest s2)
     | none =>
       (match s with
        | [] => false
        | c :: s2 => c = '[' && gmatchF fuel ps s2))
  | fuel + 1, p :: ps, s =>
    (match s with
     | [] => false
     | c :: s2 => c = p && gmatchF fuel ps s2)

/-- Model of `re.compile(fnmatch.translate(pat)).match(s)` being truthy:
an anchored shell wildcard match. -/
def fnmatchMatches (pat s : String) : Bool :=
  gmatchF (pat.toList.length + s.toList.length + 1) pat.toList s.toList

example : fnmatchMatches "worker*" "worker12" = true := by decide
example : fnmatchMatches "worker*" "web1" = false := by decide
example : fnmatchMatches "*" "" = true := by decide
example : fnmatchMatches "w?b" "web" = true := by decide
example : fnmatchMatches "[wx]eb" "web" = true := by decide
example : fnmatchMatches "[!wx]eb" "web" = false := by decide
example : fnmatchMatches "" "" = true := by decide
example : fnmatchMatches "" "a" = false := by decide
example : fnmatchMatches "a*c*e" "abcde" = true := by decide

/-! ## Node data model (EC2.py, class EC2Node)

A node is either hydrated from a cloud instance (`hydrated = true`, with
an immutable snapshot of the instance tags and string-valued instance
attributes) or an absent placeholder (`hydrated = false`). The fields
`name`, `clusterName`, `username`, `keyfile` are the resolver-assigned
mutable fields; `clusterName` models `_clustername`, with the empty
string standing for Python `None` (both are falsy). `vmProps` holds the
string-valued attributes of the backing instance (`state`, `id`,
`ip_address`, ..., with `groups` stored pre-joined); attributes of real
instances are total here, missing or `None` values being the empty
string. -/
structure Node where
  name : String := ""
  clusterName : String := ""
  username : String := ""
  keyfile : String := ""
  key : String := ""
  hydrated : Bool := false
  vmTags : List (String × String) := []
  vmProps : List (String × String) := []
deriving Repr, DecidableEq

/-- Lookup of a node by index in the shared mutable node list. -/
def nodeAt (st : List Node) (i : Nat) : Node :=
  st.getD i {}

/-- The `friendly_names` attribute aliasing of `EC2Node`. -/
def friendlyName (p : String) : String :=
  if p = "image" then "image_id"
  else if p = "dns_name" then "public_dns_name"
  else if p = "type" then "instance_type"
  else if p = "key" then "key_name"
  else if p = "vpc" then "vpc_id"
  else if p = "ip" then "ip_address"
  else p

/-- Model of `EC2Node.get` for string-valued properties: `name` returns
the template-assigned name, other names go through `friendly_names` and
then to the instance snapshot; a node with no backing instance yields
the empty string. (The `tags` property, which returns the tag mapping
itself, is modelled separately by `nodeTags`.) -/
def nodeGet (n : Node) (prop : String) : String :=
  if prop = "name" then n.name
  else if !n.hydrated then ""
  else ((n.vmProps.lookup (friendlyName prop)).getD "")

/-- Model of `node.get('tags')` as consumed by `_filter_tags`: the tag
mapping for a hydrated node; for a placeholder, `get` returns `""` and
`_filter_tags` then raises on `"".items()`, modelled as `none`. -/
def nodeTags (n : Node) : Option (List (String × String)) :=
  if n.hydrated then some n.vmTags else none

/-! ## Filtering (cluster.py `_filter_tags`, `_filter`) -/

/-- Model of `_filter_tags`: some tag pair matches both glob patterns. -/
def filterTagsPred (tags : List (String × String)) (fkey fval : String) : Bool :=
  tags.any (fun kv => fnmatchMatches fkey kv.1 && fnmatchMatches fval kv.2)

/-- Result of the tag-filter value preprocessing in `_filter`. -/
inductive TagSplit
  | bad
  | kv (fkey fval : String)
deriving Repr, DecidableEq

/-- Index of the last occurrence of a character (Python `str.rfind`,
with `none` for `-1`). -/
def lastIdxOf (c : Char) : List Char → Option Nat
  | [] => none
  | a :: as =>
    match lastIdxOf c as with
    | some i => some (i + 1)
    | none => if a = c then some 0 else none

/-- Model of `if fkey[0] == '\x22' and fkey[-1] == '\x22': fkey = fkey[1:-1]`
for a non-empty key portion. -/
def pyStripQuotes (fkey : String) : String :=
  if fkey.toList.head? = some '"' ∧ fkey.toList.getLast? = some '"' then
    String.mk ((fkey.toList.drop 1).dropLast)
  else fkey

/-- Model of the tag-filter value preprocessing in `_filter`
(cluster.py lines 427-440): `pos = filterval.rfind(':')` followed by
`if pos:`. Note that `pos == -1` (no colon) is truthy in Python, in
which case `fval = filterval[0:]` and `fkey = filterval[:-1]`, and
`pos == 0` (leading colon) is falsy, leaving both parts empty and
hitting the bad-filter branch. An empty key portion makes `fkey[0]`
raise `IndexError`, modelled as `none`. -/
def filterTagsSplit (filterval : String) : Option TagSplit :=
  match lastIdxOf ':' filterval.toList with
  | some 0 => some TagSplit.bad
  | some p =>
    let fkey := pyStripQuotes (String.mk (filterval.toList.take p))
    let fval := String.mk (filterval.toList.drop (p + 1))
    if fkey = "" ∧ fval = "" then some TagSplit.bad
    else some (TagSplit.kv fkey fval)
  | none =>
    let fkey0 := String.mk filterval.toList.dropLast
    if fkey0 = "" then none
    else
      let fkey := pyStripQuotes fkey0
      if fkey = "" ∧ filterval = "" then some TagSplit.bad
      else some (TagSplit.kv fkey filterval)

/-- The tag branch of `_filter` over a node list: each node's tag
mapping is tested by `_filter_tags`; a placeholder node raises. -/
def filterTagsNodes (fkey fval : String) : List Node → Option (List Node)
  | [] => some []
  | n :: ns =>
    match nodeTags n with
    | none => none
    | some tags =>
      (filterTagsNodes fkey fval ns).map
        (fun rest => if filterTagsPred tags fkey fval then n :: rest else rest)

/-- Model of `_filter(nodes, filterkey, filterval)` on node lists:
an empty key returns all nodes; `tags` splits the value and tests every
node's tag pairs; any other key keeps the nodes whose property value is
non-empty (truthy) and glob-matches the filter value. -/
def filterNodes (nodes : List Node) (filterkey filterval : String) :
    Option (List Node) :=
  if filterkey = "" then some nodes
  else if filterkey = "tags" then
    match filterTagsSplit filterval with
    | none => none
    | some TagSplit.bad => some []
    | some (TagSplit.kv fkey fval) => filterTagsNodes fkey fval nodes
  else
    some (nodes.filter (fun n =>
      nodeGet n filterkey ≠ "" && fnmatchMatches filterval (nodeGet n filterkey)))

/-- The tag branch of `_filter`, index-addressed against a node state. -/
def filterTagsIdx (st : List Node) (fkey fval : String) : List Nat → Option (List Nat)
  | [] => some []
  | i :: is =>
    match nodeTags (nodeAt st i) with
    | none => none
    | some tags =>
      (filterTagsIdx st fkey fval is).map
        (fun rest => if filterTagsPred tags fkey fval then i :: rest else rest)

/-- Model of `_filter`, index-addressed against a node state (used by the
resolver, where the filtered lists alias the shared mutable nodes). -/
def filterIdx (st : List Node) (idxs : List Nat) (filterkey filterval : String) :
    Option (List Nat) :=
  if filterkey = "" then some idxs
  else if filterkey = "tags" then
    match filterTagsSplit filterval with
    | none => none
    | some TagSplit.bad => some []
    | some (TagSplit.kv fkey fval) => filterTagsIdx st fkey fval idxs
  else
    some (idxs.filter (fun i =>
      nodeGet (nodeAt st i) filterkey ≠ "" &&
        fnmatchMatches filterval (nodeGet (nodeAt st i) filterkey)))

example : filterTagsSplit "a:b:c" = some (TagSplit.kv "a:b" "c") := by decide
example : filterTagsSplit "\"a:b\":c" = some (TagSplit.kv "a:b" "c") := by decide
example : filterTagsSplit ":v" = some TagSplit.bad := by decide
example : filterTagsSplit "v" = none := by decide
example : filterTagsSplit "ab" = some (TagSplit.kv "a" "ab") := by decide

/-! ## Cluster templates and resolver state (cluster.py, class Cluster)

`read_all_clusters` keys the template map by `cluster_props['name']`, so
templates are modelled as a list keyed by their `name` field. `region`
is the region of the template's `cloud:` section. `curCluster` models
`self.cur_cluster` with `""` for the unset state. `nodecache` is the
per-region inventory cache and `cloudNodes` is what the provider's
`refresh()` returns for the current region. -/

structure NodeSpec where
  nodename : String := ""
  selector : Option String := none
  username : Option String := none
  keyfile : Option String := none
deriving Repr, DecidableEq

structure ClusterTemplate where
  name : String
  filter : Option String := none
  region : String := ""
  specs : List NodeSpec := []
deriving Repr, DecidableEq

structure ClusterState where
  clusters : List ClusterTemplate := []
  curCluster : String := ""
  region : String := ""
  nodecache : List (String × List Node) := []
  cloudNodes : List Node := []
deriving Repr, DecidableEq

/-- Model of the Python tuple unpacking `key, val = s.split("=")`:
succeeds exactly when `s` contains exactly one `=`, splitting there. -/
def splitEq (s : String) : Option (String × String) :=
  match lastIdxOf '=' s.toList with
  | none => none
  | some p =>
    if (s.toList.take p).contains '=' then none
    else some (String.mk (s.toList.take p), String.mk (s.toList.drop (p + 1)))

/-- Dictionary lookup `self.clusters[name]` (templates keyed by name). -/
def lookupTemplate (cs : List ClusterTemplate) (name : String) : Option ClusterTemplate :=
  cs.find? (fun t => t.name = name)

/-- Resolve the filter of a node specification (`_find_matching_node`):
a truthy selector is split on `=`, otherwise the implicit filter
`tags=name:<nodename>` is used. -/
def specFilterKV (spec : NodeSpec) : Option (String × String) :=
  match spec.selector with
  | some fv => if fv ≠ "" then splitEq fv else some ("tags", "name:" ++ spec.nodename)
  | none => some ("tags", "name:" ++ spec.nodename)

/-- Resolve the candidate filter of a cluster template
(`get_cluster_nodes` lines 589-603): a falsy filter falls back to the
implicit tag filter `cluster:<name>` (raising when the name is also
falsy); a filter containing `=` is split; anything else raises. -/
def clusterFilterKV (t : ClusterTemplate) : Option (String × String) :=
  match t.filter with
  | none => if t.name ≠ "" then some ("tags", "cluster:" ++ t.name) else none
  | some f =>
    if f = "" then (if t.name ≠ "" then some ("tags", "cluster:" ++ t.name) else none)
    else if f.toList.contains '=' then splitEq f
    else none

/-- Model of `create_absent_node(**node_args)` with the selector
removed: an `EC2Node` built from the specification, to which the caller
then assigns the cluster name. -/
def mkAbsentNode (clusterName : String) (spec : NodeSpec) : Node :=
  { name := spec.nodename
    username := spec.username.getD ""
    keyfile := spec.keyfile.getD ""
    clusterName := clusterName
    hydrated := false }

/-- The per-matched-node assignments of the reconciliation loop
(cluster.py lines 544-558): display name, truthy username/keyfile
overrides, cluster membership. -/
def assignSpec (clusterName : String) (spec : NodeSpec) (n : Node) : Node :=
  let n1 := { n with name := spec.nodename }
  let n2 := match spec.username with
            | some u => if u ≠ "" then { n1 with username := u } else n1
            | none => n1
  let n3 := match spec.keyfile with
            | some k => if k ≠ "" then { n2 with keyfile := k } else n2
            | none => n2
  { n3 with clusterName := clusterName }

/-- In-place update of one node of the shared node list. -/
def setNode (st : List Node) (i : Nat) (f : Node → Node) : List Node :=
  st.set i (f (nodeAt st i))

/-- Apply the spec assignments to every matched node. -/
def assignAll (clusterName : String) (spec : NodeSpec) (st : List Node)
    (idxs : List Nat) : List Node :=
  idxs.foldl (fun s i => setNode s i (assignSpec clusterName spec)) st

/-- An element of a resolved node group: either a reference to a shared
inventory node (by index) or a synthesized absent placeholder. -/
inductive Entry
  | inv (i : Nat)
  | absent (n : Node)
deriving Repr, DecidableEq

/-- Model of `_find_matching_node(node_props, cluster_nodes)`:
filter the candidate indices with the specification's filter. -/
def matchSpecIdx (st : List Node) (cands : List Nat) (spec : NodeSpec) :
    Option (List Nat) :=
  match specFilterKV spec with
  | none => none
  | some (fk, fv) => filterIdx st cands fk fv

/-- The `for node_props in cluster_node_props` reconciliation loop
(cluster.py lines 537-567): each specification either assigns all its
matched candidates and contributes them to the cluster's group, or
contributes one synthesized absent node. -/
def processSpecs (clusterName : String) (cands : List Nat) :
    List NodeSpec → List Node → Option (List Node × List Entry)
  | [], st => some (st, [])
  | spec :: rest, st =>
    match matchSpecIdx st cands spec with
    | none => none
    | some matched =>
      if matched.isEmpty then
        match processSpecs clusterName cands rest st with
        | none => none
        | some (st2, es) =>
          some (st2, Entry.absent (mkAbsentNode clusterName spec) :: es)
      else
        match processSpecs clusterName cands rest (assignAll clusterName spec st matched) with
        | none => none
        | some (st3, es) => some (st3, matched.map Entry.inv ++ es)

/-- Process one cluster of `get_current_nodes_by_cluster`: select the
candidates with the cluster filter, stamp the cluster name on them, run
the per-specification reconciliation, then sweep the candidates that
ended the pass unnamed into the group as discoveries. -/
def processCluster (t : ClusterTemplate) (st : List Node) :
    Option (List Node × List Entry) :=
  match clusterFilterKV t with
  | none => none
  | some (fk, fv) =>
    match filterIdx st (List.range st.length) fk fv with
    | none => none
    | some cands =>
      let st1 := cands.foldl (fun s i => setNode s i (fun n => { n with clusterName := t.name })) st
      match processSpecs t.name cands t.specs st1 with
      | none => none
      | some (st2, es) =>
        let discoveries := (cands.filter (fun i => (nodeAt st2 i).name = "")).map Entry.inv
        some (st2, es ++ discoveries)

/-- Append entries to the group of the given cluster name. -/
def groupsAppend (gs : List (String × List Entry)) (name : String)
    (es : List Entry) : List (String × List Entry) :=
  gs.map (fun p => if p.1 = name then (p.1, p.2 ++ es) else p)

/-- The `ret_nodes` dictionary initialised with `Unassigned` plus every
configured cluster name (duplicate keys collapse as in a dict). -/
def initGroups (s : ClusterState) : List (String × List Entry) :=
  (("Unassigned" :: s.clusters.map (fun t => t.name)).dedup).map (fun n => (n, []))

/-- The cluster names a resolution pass iterates over: the current
cluster alone when one is selected, otherwise every configured cluster
whose template region is the current region. -/
def clustersToProcess (s : ClusterState) : List String :=
  if s.curCluster ≠ "" then [s.curCluster]
  else (s.clusters.filter (fun t => t.region = s.region)).map (fun t => t.name)

/-- The `for cluster_name in clusters` loop of
`get_current_nodes_by_cluster`, threading the shared node state. -/
def processClusters (cs : List ClusterTemplate) :
    List String → List (String × List Entry) → List Node →
    Option (List (String × List Entry) × List Node)
  | [], gs, st => some (gs, st)
  | name :: rest, gs, st =>
    match lookupTemplate cs name with
    | none => none
    | some t =>
      match processCluster t st with
      | none => none
      | some (st2, es) => processClusters cs rest (groupsAppend gs name es) st2

/-- The final unassigned sweep: every inventory node whose cluster field
is still falsy is appended to the reserved group. -/
def unassignedSweep (nodes : List Node) : List Entry :=
  ((List.range nodes.length).filter (fun i => (nodeAt nodes i).clusterName = "")).map Entry.inv

/-- Cache primitives over the `{region : [Node]}` dictionary. -/
def cacheLookup (cache : List (String × List Node)) (r : String) : Option (List Node) :=
  (cache.find? (fun p => p.1 = r)).map Prod.snd

def cacheSet (cache : List (String × List Node)) (r : String) (ns : List Node) :
    List (String × List Node) :=
  if (cache.find? (fun p => p.1 = r)).isSome then
    cache.map (fun p => if p.1 = r then (r, ns) else p)
  else cache ++ [(r, ns)]

def cacheDel (cache : List (String × List Node)) (r : String) :
    List (String × List Node) :=
  cache.filter (fun p => p.1 ≠ r)

/-- Model of `invalidate_cache`: `if self.nodecache.get(region): del ...`.
An empty cached list is falsy, so it is left in place. -/
def invalidate_cache (s : ClusterState) : ClusterState :=
  match cacheLookup s.nodecache s.region with
  | some l => if l ≠ [] then { s with nodecache := cacheDel s.nodecache s.region } else s
  | none => s

/-- Result of one `get_current_nodes_by_cluster` pass: the groups, the
final shared node list, whether the provider was asked to refresh, and
the updated resolver state. Because the cache entry aliases the mutated
node objects, the entry for the region is the final node list whether or
not a refresh happened. -/
structure ResolveResult where
  groups : List (String × List Entry)
  nodes : List Node
  fetched : Bool
  st : ClusterState
deriving Repr, DecidableEq

/-! Model of `get_current_nodes_by_cluster` (cluster.py lines 495-580):
use the region's cached inventory when the cached list is truthy
(non-empty), otherwise fetch from the provider exactly once and store;
then reconcile every processed cluster and finally, when no current
cluster is selected, sweep unclaimed nodes into `Unassigned`. -/

/-- The guard `if nodecache_nodes:` — Python truthiness of the cached
list for the current region. -/
def cacheHit (s : ClusterState) : Bool :=
  match cacheLookup s.nodecache s.region with
  | some l => decide (l ≠ [])
  | none => false

/-- The inventory a resolution pass works on: the cached list on a
truthy cache entry, otherwise the provider's `refresh()` result. -/
def resolveNodes0 (s : ClusterState) : List Node :=
  if cacheHit s then (cacheLookup s.nodecache s.region).getD [] else s.cloudNodes

def get_current_nodes_by_cluster (s : ClusterState) : Option ResolveResult :=
  match processClusters s.clusters (clustersToProcess s) (initGroups s) (resolveNodes0 s) with
  | none => none
  | some (gs, nodes1) =>
    let gs2 := if s.curCluster = "" then groupsAppend gs "Unassigned" (unassignedSweep nodes1) else gs
    some { groups := gs2
           nodes := nodes1
           fetched := !cacheHit s
           st := { s with nodecache := cacheSet s.nodecache s.region nodes1 } }

/-- Computable lexicographic strict comparison of character lists
(Python string `<`). -/
def strLtB : List Char → List Char → Bool
  | [], [] => false
  | [], _ :: _ => true
  | _ :: _, [] => false
  | a :: as, b :: bs =>
    if a.val < b.val then true
    else if a.val = b.val then strLtB as bs
    else false

/-- Strict lexicographic comparison of strings. -/
def strLt (a b : String) : Bool :=
  strLtB a.toList b.toList

/-- Stable insertion of an element into a list sorted by a string key:
existing elements with a smaller-or-equal key stay in front. -/
def insSorted (key : α → String) (x : α) : List α → List α
  | [] => [x]
  | y :: ys => if strLt (key y) (key x) then y :: insSorted key x ys else x :: y :: ys

/-- Stable sort by a string key; extensionally equal to Python's stable
`sorted(..., key=...)`. -/
def ssortBy (key : α → String) : List α → List α
  | [] => []
  | x :: xs => insSorted key x (ssortBy key xs)

/-- The cluster name an entry displays under (`x.cluster`), read from
the final shared node state. -/
def entryCluster (nodes : List Node) : Entry → String
  | Entry.inv i => (nodeAt nodes i).clusterName
  | Entry.absent n => n.clusterName

/-- Model of `get_current_nodes`: flatten the groups map and sort the
result by cluster name with a stable sort. -/
def get_current_nodes (s : ClusterState) : Option (List Entry × ResolveResult) :=
  match get_current_nodes_by_cluster s with
  | none => none
  | some r => some (ssortBy (entryCluster r.nodes) (r.groups.map Prod.snd).flatten, r)

/-! ## Receive demultiplexer (lineterm.py, class ReceiveDemux)

Channels are identified by numbers; the per-channel `SSHTerm` session
state carries the receive buffer, the raw-shell flag and the
banner-suppression flag (initialised `true` in `SSHTerm.__init__`, so
the suppression branch is dormant on the normal login path). The select
outcome of one loop iteration is modelled by a function giving each
channel its readiness (`bytes` read, a `socket.timeout`, or nothing)
and its error flag; `select` only ever reports channels that are
registered in `self.chans`. -/

structure Term where
  nodeName : String := ""
  recvbuf : String := ""
  rawShellMode : Bool := false
  loginGuidFound : Bool := true
deriving Repr, DecidableEq

structure DemuxState where
  chans : List (Nat × Term) := []
  sessionMap : List (String × Nat) := []
  hasRefreshCallback : Bool := false
deriving Repr, DecidableEq

inductive RecvRes
  | bytes (s : String)
  | timeout
deriving Repr, DecidableEq

structure ChanInput where
  ready : Option RecvRes := none
  errFlag : Bool := false
deriving Repr, DecidableEq

/-- Console / buffer writes performed by the loop, tagged with the
channel the bytes came from where applicable. -/
inductive Delivery
  | rawConsole (c : Nat) (s : String)
  | buffer (c : Nat) (s : String)
  | flushOut (c : Nat) (s : String)
  | disconnectNotice
  | refreshCb
deriving Repr, DecidableEq

def deliveryChan : Delivery → Option Nat
  | Delivery.rawConsole c _ => some c
  | Delivery.buffer c _ => some c
  | Delivery.flushOut c _ => some c
  | Delivery.disconnectNotice => none
  | Delivery.refreshCb => none

/-- Model of `ReceiveDemux.stop(chan)`: deregister the channel and
remove every session-registry entry bound to its session
(`SessionManager.remove_session`); a missing channel raises `KeyError`. -/
def demuxStop (st : DemuxState) (c : Nat) : Option DemuxState :=
  match st.chans.lookup c with
  | none => none
  | some _ =>
    some { st with
           chans := st.chans.filter (fun p => p.1 ≠ c)
           sessionMap := st.sessionMap.filter (fun p => p.2 ≠ c) }

/-- Append received bytes to a session's receive buffer. -/
def updateBuf (st : DemuxState) (c : Nat) (b : String) : DemuxState :=
  { st with chans := st.chans.map (fun p =>
      if p.1 = c then (p.1, { p.2 with recvbuf := p.2.recvbuf ++ b }) else p) }

/-- The `for achan in r` body of `receive_loop`: a `socket.timeout` is
swallowed; a zero-length read prints the disconnect notice, stops the
channel and breaks out of the loop; raw-mode bytes go straight to the
console; otherwise bytes are buffered. -/
def procReady (st : DemuxState) (acc : List Delivery) :
    List (Nat × RecvRes) → List Delivery × Option DemuxState
  | [] => (acc, some st)
  | (_, RecvRes.timeout) :: rest => procReady st acc rest
  | (c, RecvRes.bytes b) :: rest =>
    if b = "" then
      match demuxStop st c with
      | none => (acc ++ [Delivery.disconnectNotice], none)
      | some st2 => (acc ++ [Delivery.disconnectNotice], some st2)
    else
      match st.chans.lookup c with
      | none => (acc, none)
      | some t =>
        if t.rawShellMode then procReady st (acc ++ [Delivery.rawConsole c b]) rest
        else procReady (updateBuf st c b) (acc ++ [Delivery.buffer c b]) rest

/-- The `if e: for achan in e: self.stop(achan)` error sweep. -/
def procErrs (st : DemuxState) : List Nat → Option DemuxState
  | [] => some st
  | c :: rest =>
    match demuxStop st c with
    | none => none
    | some st2 => procErrs st2 rest

/-- Leftmost occurrence index of a substring (Python `str.find`). -/
def findSub (hay needle : List Char) : Option Nat :=
  (List.range (hay.length + 1)).find? (fun i => needle.isPrefixOf (hay.drop i))

/-- Rightmost occurrence index of a substring (Python `str.rfind`). -/
def rfindSub (hay needle : List Char) : Option Nat :=
  ((List.range (hay.length + 1)).filter (fun i => needle.isPrefixOf (hay.drop i))).getLast?

def loginCompleteGuid : String := "B79D8677-F58A-4E09-B917-855A6619A951"

/-- The dormant login-banner suppression: text before the second
occurrence of the per-login marker is discarded once. -/
def applyGuidSuppression (t : Term) : Term :=
  if t.loginGuidFound then t
  else
    match findSub t.recvbuf.toList loginCompleteGuid.toList with
    | none => t
    | some pos1 =>
      match rfindSub t.recvbuf.toList loginCompleteGuid.toList with
      | none => t
      | some pos2 =>
        if pos1 ≠ pos2 then
          { t with loginGuidFound := true
                   recvbuf := String.mk (t.recvbuf.toList.drop (pos2 + loginCompleteGuid.toList.length)) }
        else t

/-- Idle-tick flush of one session: skipped for an empty buffer or a
raw-mode session; otherwise prefix every line with the node name,
write, and clear the buffer. Returns the updated session, the console
writes and whether output was written. -/
def flushTerm (c : Nat) (t : Term) : Term × List Delivery × Bool :=
  if t.recvbuf = "" then (t, [], false)
  else if t.rawShellMode then (t, [], false)
  else
    let t2 := applyGuidSuppression t
    if t2.recvbuf.trim ≠ "" then
      let pfx := "\n\x1b[1m[" ++ t2.nodeName ++ "]\x1b[21m "
      let payload := "\n" ++ pfx ++ (t2.recvbuf.replace "\n" pfx) ++ "\n"
      ({ t2 with recvbuf := "" }, [Delivery.flushOut c payload], true)
    else (t2, [], false)

/-- The idle-tick flush over all registered sessions, followed by the
refresh callback when something was written and a callback is set. -/
def flushChans : List (Nat × Term) → List (Nat × Term) × List Delivery × Bool
  | [] => ([], [], false)
  | (c, t) :: rest =>
    let ft := flushTerm c t
    let fr := flushChans rest
    ((c, ft.1) :: fr.1, ft.2.1 ++ fr.2.1, ft.2.2 || fr.2.2)

def flushAll (st : DemuxState) : DemuxState × List Delivery :=
  let step := flushChans st.chans
  let outs := if step.2.2 && st.hasRefreshCallback then step.2.1 ++ [Delivery.refreshCb] else step.2.1
  ({ st with chans := step.1 }, outs)

/-- One iteration of `receive_loop`: select over the registered
channels, process ready channels, process errored channels, and on an
idle tick flush the buffered sessions. -/
def selectReady (st : DemuxState) (inp : Nat → ChanInput) : List (Nat × RecvRes) :=
  (st.chans.map Prod.fst).filterMap
    (fun c => ((inp c).ready).map (fun rr => (c, rr)))

def selectErrs (st : DemuxState) (inp : Nat → ChanInput) : List Nat :=
  (st.chans.map Prod.fst).filter (fun c => (inp c).errFlag)

def demuxStepCore (st : DemuxState) (r : List (Nat × RecvRes)) (e : List Nat) :
    List Delivery × Option DemuxState :=
  match procReady st [] r with
  | (outs, none) => (outs, none)
  | (outs, some st1) =>
    match procErrs st1 e with
    | none => (outs, none)
    | some st2 =>
      if r.isEmpty && e.isEmpty then
        let fa := flushAll st2
        (outs ++ fa.2, some fa.1)
      else (outs, some st2)

def demuxStep (st : DemuxState) (inp : Nat → ChanInput) :
    List Delivery × Option DemuxState :=
  demuxStepCore st (selectReady st inp) (selectErrs st inp)

/-- Run the receive loop over a finite trace of select outcomes; a
raised exception kills the loop thread, after which nothing further is
delivered. -/
def runDemux (st : DemuxState) : List (Nat → ChanInput) → List Delivery × Option DemuxState
  | [] => ([], some st)
  | i :: is =>
    match demuxStep st i with
    | (outs, none) => (outs, none)
    | (outs, some st2) =>
      let rec2 := runDemux st2 is
      (outs ++ rec2.1, rec2.2)

/-! ## SSHTerm.command (lineterm.py lines 312-324) -/

structure SSHTermConn where
  state : String := "not_connected"
  hasTransport : Bool := false
  authenticated : Bool := false
  active : Bool := false
deriving Repr, DecidableEq

/-- Model of `SSHTerm.is_connected`. -/
def is_connected (t : SSHTermConn) : Bool :=
  t.hasTransport && t.authenticated && t.active

/-- Model of `SSHTerm.command(line)`: a logged no-op unless the session
state is `connected` and the transport is authenticated and active;
otherwise the line and a newline are written to the channel. The second
component lists the `chan.send` calls performed; nothing is read back. -/
def sshCommand (t : SSHTermConn) (line : String) : SSHTermConn × List String :=
  if t.state ≠ "connected" then (t, [])
  else if !(is_connected t) then (t, [])
  else (t, [line, "\n"])

/-! ## Raw interactive shell (lineterm.py raw_shell_posix / revert_tty)

Local terminal attributes are an abstract `Nat`. The input trace events
are: a byte read from stdin, end of input (empty read), or an exception
raised inside the loop body (caught and logged by the `except` inside
the `while`, so the loop continues). `rawLoop` returns `none` when the
trace is exhausted while the loop is still waiting for input. -/

inductive RawEvent
  | byte (b : Nat)
  | eof
  | exn
deriving Repr, DecidableEq

structure RawShellSt where
  tty : Nat
  rawShellMode : Bool := false
  oldattrs : Option Nat := none
deriving Repr, DecidableEq

/-- Model of `SSHTerm.revert_tty`. -/
def revert_tty (s : RawShellSt) : RawShellSt :=
  let s1 := { s with rawShellMode := false }
  match s1.oldattrs with
  | some a => { s1 with tty := a }
  | none => s1

/-- The `while self.raw_shell_mode` read loop: counts consecutive
interrupt characters (byte 3), exits on the third, forwards every other
read byte (and the first two interrupts) to the channel, exits on an
empty read, and swallows exceptions. Returns (ctrlout, bytes sent). -/
def rawLoop : Nat → List RawEvent → Option (Bool × List Nat)
  | _, [] => none
  | _, RawEvent.eof :: _ => some (false, [])
  | count, RawEvent.exn :: rest => rawLoop count rest
  | count, RawEvent.byte b :: rest =>
    let count2 := if b = 3 then count + 1 else 0
    if count2 > 2 then some (true, [])
    else (rawLoop count2 rest).map (fun p => (p.1, b :: p.2))

/-- Model of `SSHTerm.raw_shell_posix`: save the terminal attributes,
switch to raw/cbreak mode, run the read loop, and restore the saved
attributes via `revert_tty` (after `disable_echo` when leaving by
triple interrupt, which only writes to the channel). -/
def raw_shell_posix (rawAttrs : Nat) (s : RawShellSt) (events : List RawEvent) :
    Option (RawShellSt × Bool × List Nat) :=
  let s1 := { s with rawShellMode := true, oldattrs := some s.tty, tty := rawAttrs }
  match rawLoop 0 events with
  | none => none
  | some (ctrlout, sent) => some (revert_tty s1, ctrlout, sent)

/-! ## File transfer fan-out (commands/getput.py, lineterm.py put/get) -/

structure FileSystem where
  files : List String := []
  dirs : List String := []
deriving Repr, DecidableEq

/-- Last path component (os.path.basename). -/
def osPathBasename (p : String) : String :=
  match lastIdxOf '/' p.toList with
  | some i => String.mk (p.toList.drop (i + 1))
  | none => p

/-- Join a directory and a file name (os.path.join for a relative
file name). -/
def osPathJoin (dir f : String) : String :=
  if dir.toList.getLast? = some '/' then dir ++ f else dir ++ "/" ++ f

/-- Model of `glob.iglob(pattern)`: the existing local files matching
the pattern. A pattern without wildcards matches exactly itself, as in
the glob module. -/
def globIglob (fs : FileSystem) (pat : String) : List String :=
  fs.files.filter (fun p => fnmatchMatches pat p)

/-- Model of `LineTerm.get(keyfile, node, remotefile, localdir)`:
requires the local destination directory to exist when given, downloads
`remotefile` and returns the local file it creates, named
`basename(remotefile)` suffixed with `.` and the node's display name. -/
def lineterm_get (fs : FileSystem) (nodeName : String)
    (remotefile localdir : String) : Option String :=
  if localdir ≠ "" && !(fs.dirs.contains localdir) then none
  else
    let fname := osPathBasename remotefile
    let localfile := if localdir ≠ "" then osPathJoin localdir fname else fname
    some (localfile ++ "." ++ nodeName)

/-- Model of the `get` command body after target resolution
(commands/getput.py lines 86-88): for every resolved running node, for
every file produced by expanding the REMOTE path with the LOCAL
`glob.iglob`, download it. Returns the list of local files created. -/
def getCommandFiles (fs : FileSystem) (targetNodes : List String)
    (remotefile localdir : String) : List String :=
  (targetNodes.map (fun n =>
    (globIglob fs remotefile).filterMap (fun fname => lineterm_get fs n fname localdir))).flatten

/-! Sanity checks of the resolver model on the documented scenario:
template `web` with implicit filter `tags=cluster:web` and specs
`web1`..`web3`, inventory carrying tagged instances for `web1`, `web2`
and one unrelated node. -/

def scenarioAState : ClusterState :=
  { clusters := [{ name := "web", region := "r",
                   specs := [{ nodename := "web1" }, { nodename := "web2" },
                             { nodename := "web3" }] }]
    curCluster := ""
    region := "r"
    nodecache := []
    cloudNodes :=
      [ { hydrated := true, vmTags := [("cluster", "web"), ("name", "web1")] },
        { hydrated := true, vmTags := [("cluster", "web"), ("name", "web2")] },
        { hydrated := true, vmTags := [("x", "y")] } ] }

example :
    (get_current_nodes_by_cluster scenarioAState).map (fun r => (r.groups, r.fetched)) =
      some ([("Unassigned", [Entry.inv 2]),
             ("web", [Entry.inv 0, Entry.inv 1,
                      Entry.absent { name := "web3", clusterName := "web" }])], true) := by
  decide

example :
    (get_current_nodes scenarioAState).map Prod.fst =
      some [Entry.inv 2, Entry.inv 0, Entry.inv 1,
            Entry.absent { name := "web3", clusterName := "web" }] := by
  decide

/-! ## Claim theorems -/

/-- C7: for every session and line, `command(line)` sends the line
followed by a newline over the shell channel exactly when the session
state is `connected` and the transport reports authenticated and
active; otherwise it is a no-op that sends nothing and leaves the
session state unchanged. The model returns only the performed
`chan.send` calls: nothing is read back and no acknowledgment exists. -/
theorem C7_command_guarded (t : SSHTermConn) (line : String) :
    ((t.state = "connected" ∧ is_connected t = true) →
       sshCommand t line = (t, [line, "\n"])) ∧
    (¬(t.state = "connected" ∧ is_connected t = true) →
       sshCommand t line = (t, [])) ∧
    (sshCommand t line).1 = t := by
  refine ⟨?_, ?_, ?_⟩
  · rintro ⟨h1, h2⟩
    simp [sshCommand, h1, h2]
  · intro h
    by_cases h1 : t.state = "connected"
    · by_cases h2 : is_connected t = true
      · exact absurd ⟨h1, h2⟩ h
      · simp [sshCommand, h1, h2]
    · simp [sshCommand, h1]
  · by_cases h1 : t.state = "connected" <;> by_cases h2 : is_connected t = true <;>
      simp [sshCommand, h1, h2]

/-- Witness for C7 at concrete sessions: a connected, authenticated,
active session sends the line and one newline; a fresh session sends
nothing and is unchanged. -/
theorem C7_command_guarded_witness :
    sshCommand { state := "connected", hasTransport := true, authenticated := true,
                 active := true } "ls" =
      ({ state := "connected", hasTransport := true, authenticated := true,
         active := true }, ["ls", "\n"]) ∧
    sshCommand { state := "not_connected" } "ls" = ({ state := "not_connected" }, []) :=
  ⟨(C7_command_guarded ⟨"connected", true, true, true⟩ "ls").1 ⟨rfl, rfl⟩,
   (C7_command_guarded { state := "not_connected" } "ls").2.1 (by decide)⟩

/-- C10: a non-tags filter `key=value` never selects a node whose value
for that field is missing or empty, whatever the value glob — the
`if not val: continue` test runs before the glob is tried. -/
theorem C10_empty_field_never_selected (nodes : List Node) (fk fv : String)
    (n : Node) (hk : fk ≠ "tags") (hk2 : fk ≠ "")
    (hempty : nodeGet n fk = "") :
    ∀ l, filterNodes nodes fk fv = some l → n ∉ l := by
  intro l h
  simp only [filterNodes, if_neg hk2, if_neg hk, Option.some.injEq] at h
  subst h
  intro hmem
  have := (List.mem_filter.mp hmem).2
  simp [hempty] at this

/-- Witness for C10 at a concrete input: the glob `*` matches the empty
string, yet a running-state filter never selects a node whose `state`
attribute is empty. -/
theorem C10_empty_field_never_selected_witness :
    fnmatchMatches "*" "" = true ∧
    ({ hydrated := true, vmProps := [("state", "")] } : Node) ∉ ([] : List Node) :=
  ⟨by decide,
   C10_empty_field_never_selected [{ hydrated := true, vmProps := [("state", "")] }]
     "state" "*" { hydrated := true, vmProps := [("state", "")] }
     (by decide) (by decide) (by decide) [] (by decide)⟩

/-- The raw-shell read loop returns (terminates) whenever the input
trace contains three consecutive interrupt characters, whatever the
interrupt count accumulated so far. -/
theorem rawLoop_triple_interrupt_isSome (pre : List RawEvent) :
    ∀ (count : Nat) (post : List RawEvent),
      (rawLoop count (pre ++ [RawEvent.byte 3, RawEvent.byte 3, RawEvent.byte 3] ++ post)).isSome := by
  induction pre with
  | nil =>
    intro count post
    by_cases h1 : count + 1 > 2
    · simp [rawLoop, h1]
    · by_cases h2 : count + 1 + 1 > 2
      · simp [rawLoop, h1, h2]
      · have h3 : count + 1 + 1 + 1 > 2 := by omega
        simp [rawLoop, h1, h2, h3]
  | cons ev rest ih =>
    intro count post
    match ev with
    | RawEvent.eof => simp [rawLoop]
    | RawEvent.exn => simpa [rawLoop] using ih count post
    | RawEvent.byte b =>
      by_cases hb : (if b = 3 then count + 1 else 0) > 2
      · simp [rawLoop, hb]
      · simpa [rawLoop, hb] using ih (if b = 3 then count + 1 else 0) post

/-- C8: the raw interactive shell loop terminates once the local input
contains three consecutive interrupt characters (byte 3), and on every
exit path of the loop — clean triple-interrupt exit, end of input, or
trailing events after exceptions swallowed inside the loop — the
terminal attributes saved on entry are restored exactly. -/
theorem C8_raw_shell_restores (rawAttrs : Nat) (s : RawShellSt) :
    (∀ (events : List RawEvent) (res : RawShellSt × Bool × List Nat),
       raw_shell_posix rawAttrs s events = some res → res.1.tty = s.tty) ∧
    (∀ (pre post : List RawEvent),
       (raw_shell_posix rawAttrs s
         (pre ++ [RawEvent.byte 3, RawEvent.byte 3, RawEvent.byte 3] ++ post)).isSome) := by
  constructor
  · intro events res h
    simp only [raw_shell_posix] at h
    match hl : rawLoop 0 events with
    | none => rw [hl] at h; exact absurd h (by simp)
    | some p =>
      rw [hl] at h
      simp only [Option.some.injEq] at h
      rw [← h]
      simp [revert_tty]
  · intro pre post
    have := rawLoop_triple_interrupt_isSome pre 0 post
    simp only [raw_shell_posix]
    match hl : rawLoop 0 (pre ++ [RawEvent.byte 3, RawEvent.byte 3, RawEvent.byte 3] ++ post) with
    | none => rw [hl] at this; simp at this
    | some p => simp

/-- Witness for C8 at a concrete run: three interrupts read in raw mode
terminate the loop (the first two are forwarded, the third is not) and
the attributes return to their pre-raw-mode value 42. -/
theorem C8_raw_shell_restores_witness :
    raw_shell_posix 7 { tty := 42 } [RawEvent.byte 3, RawEvent.byte 3, RawEvent.byte 3] =
      some ({ tty := 42, rawShellMode := false, oldattrs := some 42 }, true, [3, 3]) ∧
    ({ tty := 42, rawShellMode := false, oldattrs := some 42 } : RawShellSt).tty = 42 :=
  ⟨by decide,
   (C8_raw_shell_restores 7 { tty := 42 }).1 [RawEvent.byte 3, RawEvent.byte 3, RawEvent.byte 3]
     ({ tty := 42, rawShellMode := false, oldattrs := some 42 }, true, [3, 3]) (by decide)⟩

/-- C5: the `get` fan-out expands the REMOTE path against the LOCAL
filesystem (`glob.iglob(remotefile)` in commands/getput.py line 87).
With two resolved running nodes `w1`, `w2` and `/opt/out.txt` absent
from the local machine, zero downloads happen and no files are
produced, contradicting the documented scenario; the scenario's files
appear only in the accidental case where the remote path also exists
locally. -/
theorem C5_get_uses_local_glob_failing_input :
    getCommandFiles { files := [], dirs := ["/tmp"] } ["w1", "w2"] "/opt/out.txt" "/tmp" = [] ∧
    getCommandFiles { files := ["/opt/out.txt"], dirs := ["/tmp"] } ["w1", "w2"]
        "/opt/out.txt" "/tmp" = ["/tmp/out.txt.w1", "/tmp/out.txt.w2"] := by
  decide

/-! ## Cache discipline lemmas -/

theorem cacheLookup_cacheSet (cache : List (String × List Node)) (r : String)
    (ns : List Node) : cacheLookup (cacheSet cache r ns) r = some ns := by
  induction cache with
  | nil => simp [cacheSet, cacheLookup]
  | cons p t ih =>
    by_cases hk : p.1 = r
    · have e1 : List.find? (fun q => (decide (q.1 = r))) (p :: t) = some p :=
        List.find?_cons_of_pos _ (by simpa using hk)
      have e2 : cacheSet (p :: t) r ns =
          (r, ns) :: t.map (fun q => if q.1 = r then (r, ns) else q) := by
        simp [cacheSet, e1, hk]
      rw [e2]
      unfold cacheLookup
      rw [List.find?_cons_of_pos _ (by simp)]
      rfl
    · by_cases ht : (t.find? (fun q => (decide (q.1 = r)))).isSome = true
      · have e1 : List.find? (fun q => (decide (q.1 = r))) (p :: t) =
            List.find? (fun q => (decide (q.1 = r))) t :=
          List.find?_cons_of_neg _ (by simpa using hk)
        have e2 : cacheSet (p :: t) r ns =
            p :: t.map (fun q => if q.1 = r then (r, ns) else q) := by
          simp [cacheSet, e1, ht, hk]
        have e3 : cacheSet t r ns = t.map (fun q => if q.1 = r then (r, ns) else q) := by
          simp [cacheSet, ht]
        rw [e2]
        unfold cacheLookup
        rw [List.find?_cons_of_neg _ (by simpa using hk)]
        rw [e3] at ih
        unfold cacheLookup at ih
        exact ih
      · have e1 : List.find? (fun q => (decide (q.1 = r))) (p :: t) =
            List.find? (fun q => (decide (q.1 = r))) t :=
          List.find?_cons_of_neg _ (by simpa using hk)
        have e2 : cacheSet (p :: t) r ns = p :: (t ++ [(r, ns)]) := by
          simp [cacheSet, e1, ht, hk]
        have e3 : cacheSet t r ns = t ++ [(r, ns)] := by
          simp only [Bool.not_eq_true] at ht
          simp [cacheSet, ht]
        rw [e2]
        unfold cacheLookup
        rw [List.find?_cons_of_neg _ (by simpa using hk)]
        rw [e3] at ih
        unfold cacheLookup at ih
        exact ih

theorem cacheLookup_cacheDel_self (cache : List (String × List Node)) (r : String) :
    cacheLookup (cacheDel cache r) r = none := by
  have h : (cacheDel cache r).find? (fun p => (p.1 = r : Bool)) = none := by
    apply List.find?_eq_none.mpr
    intro x hx
    have hmem : x.1 ≠ r := by simpa using (List.mem_filter.mp hx).2
    simp [hmem]
  simp [cacheLookup, h]

theorem cacheLookup_cacheDel_other (cache : List (String × List Node)) (r r2 : String)
    (h : r2 ≠ r) : cacheLookup (cacheDel cache r) r2 = cacheLookup cache r2 := by
  induction cache with
  | nil => simp [cacheDel, cacheLookup]
  | cons p t ih =>
    by_cases hk : p.1 = r
    · have hk2 : ¬ (p.1 = r2) := by rw [hk]; exact fun hh => h hh.symm
      have hdel : cacheDel (p :: t) r = cacheDel t r := by
        simp [cacheDel, List.filter_cons, hk]
      have e2 : List.find? (fun q => (decide (q.1 = r2))) (p :: t) =
          List.find? (fun q => (decide (q.1 = r2))) t :=
        List.find?_cons_of_neg _ (by simpa using hk2)
      rw [hdel, ih]
      unfold cacheLookup
      rw [e2]
    · have hdel : cacheDel (p :: t) r = p :: cacheDel t r := by
        simp [cacheDel, List.filter_cons, hk]
      rw [hdel]
      by_cases hk2 : p.1 = r2
      · have e1 : List.find? (fun q => (decide (q.1 = r2))) (p :: cacheDel t r) = some p :=
          List.find?_cons_of_pos _ (by simpa using hk2)
        have e2 : List.find? (fun q => (decide (q.1 = r2))) (p :: t) = some p :=
          List.find?_cons_of_pos _ (by simpa using hk2)
        unfold cacheLookup
        rw [e1, e2]
      · have e1 : List.find? (fun q => (decide (q.1 = r2))) (p :: cacheDel t r) =
            List.find? (fun q => (decide (q.1 = r2))) (cacheDel t r) :=
          List.find?_cons_of_neg _ (by simpa using hk2)
        have e2 : List.find? (fun q => (decide (q.1 = r2))) (p :: t) =
            List.find? (fun q => (decide (q.1 = r2))) t :=
          List.find?_cons_of_neg _ (by simpa using hk2)
        unfold cacheLookup at ih ⊢
        rw [e1, e2]
        exact ih

theorem cacheHit_of_entry (s : ClusterState) (l : List Node)
    (hc : cacheLookup s.nodecache s.region = some l) (hne : l ≠ []) :
    cacheHit s = true ∧ resolveNodes0 s = l := by
  constructor
  · simp [cacheHit, hc, hne]
  · simp [resolveNodes0, cacheHit, hc, hne]

theorem cacheHit_of_no_entry (s : ClusterState)
    (hc : cacheLookup s.nodecache s.region = none) :
    cacheHit s = false ∧ resolveNodes0 s = s.cloudNodes := by
  constructor
  · simp [cacheHit, hc]
  · simp [resolveNodes0, cacheHit, hc]

/-- C3 counterexample: a state whose cache holds an entry for the
current region that is the EMPTY list. The entry is present, yet the
resolution performs a provider refresh (Python `if nodecache_nodes:`
treats the empty list as a miss), and `invalidate_cache`
(`if self.nodecache.get(region): del ...`) removes nothing. This
refutes the claim that a resolution finding a cache entry performs no
refresh, and that invalidation removes the region's entry. -/
theorem C3_empty_cache_entry_counterexample :
    (cacheLookup ([("r", [])] : List (String × List Node)) "r").isSome = true ∧
    (get_current_nodes_by_cluster { region := "r", nodecache := [("r", [])] }).map
        (fun r => r.fetched) = some true ∧
    invalidate_cache { region := "r", nodecache := [("r", [])] } =
      { region := "r", nodecache := [("r", [])] } := by
  decide

/-- C3 (amended): the caching discipline holds with "cache entry" read
as "non-empty cache entry": a resolution finding a non-empty entry for
the current region performs no refresh; the resolution immediately
following an invalidation performs the pass's single refresh and
repopulates the region's entry with the pass's node list; invalidation
removes exactly the current region's (non-empty) entry and leaves every
other region's entry untouched. An empty entry is left in place by
invalidation and behaves as a miss. -/
theorem C3_cache_refresh_discipline (s : ClusterState) (l : List Node)
    (hc : cacheLookup s.nodecache s.region = some l) (hne : l ≠ []) :
    (∀ r, get_current_nodes_by_cluster s = some r → r.fetched = false) ∧
    (∀ r, get_current_nodes_by_cluster (invalidate_cache s) = some r →
       r.fetched = true ∧ cacheLookup r.st.nodecache s.region = some r.nodes) ∧
    cacheLookup (invalidate_cache s).nodecache s.region = none ∧
    (∀ r2, r2 ≠ s.region →
       cacheLookup (invalidate_cache s).nodecache r2 = cacheLookup s.nodecache r2) := by
  have hinv : invalidate_cache s = { s with nodecache := cacheDel s.nodecache s.region } := by
    simp [invalidate_cache, hc, hne]
  refine ⟨?_, ?_, ?_, ?_⟩
  · intro r hr
    simp only [get_current_nodes_by_cluster] at hr
    match hm : processClusters s.clusters (clustersToProcess s) (initGroups s)
        (resolveNodes0 s) with
    | none => rw [hm] at hr; exact absurd hr (by simp)
    | some p =>
      rw [hm] at hr
      simp only [Option.some.injEq] at hr
      rw [← hr]
      simp [(cacheHit_of_entry s l hc hne).1]
  · intro r hr
    rw [hinv] at hr
    simp only [get_current_nodes_by_cluster] at hr
    match hm : processClusters s.clusters
        (clustersToProcess { s with nodecache := cacheDel s.nodecache s.region })
        (initGroups { s with nodecache := cacheDel s.nodecache s.region })
        (resolveNodes0 { s with nodecache := cacheDel s.nodecache s.region }) with
    | none => rw [hm] at hr; exact absurd hr (by simp)
    | some p =>
      rw [hm] at hr
      simp only [Option.some.injEq] at hr
      have hmiss : cacheLookup (cacheDel s.nodecache s.region) s.region = none :=
        cacheLookup_cacheDel_self s.nodecache s.region
      rw [← hr]
      constructor
      · have := (cacheHit_of_no_entry { s with nodecache := cacheDel s.nodecache s.region }
          (by simpa using hmiss)).1
        simp [this]
      · simpa using cacheLookup_cacheSet (cacheDel s.nodecache s.region) s.region p.2
  · rw [hinv]
    exact cacheLookup_cacheDel_self s.nodecache s.region
  · intro r2 h2
    rw [hinv]
    exact cacheLookup_cacheDel_other s.nodecache s.region r2 h2

/-- Witness for the amended C3 at a concrete state with a non-empty
cached entry: invalidation drops exactly that entry and preserves the
other region's entry. -/
theorem C3_cache_refresh_discipline_witness :
    cacheLookup (invalidate_cache { region := "r", nodecache := [("r", [{}]), ("q", [])] }).nodecache
        "r" = none ∧
    cacheLookup (invalidate_cache { region := "r", nodecache := [("r", [{}]), ("q", [])] }).nodecache
        "q" = cacheLookup [("r", [{}]), ("q", [])] "q" :=
  ⟨(C3_cache_refresh_discipline { region := "r", nodecache := [("r", [{}]), ("q", [])] }
      [{}] (by decide) (by decide)).2.2.1,
   (C3_cache_refresh_discipline { region := "r", nodecache := [("r", [{}]), ("q", [])] }
      [{}] (by decide) (by decide)).2.2.2 "q" (by decide)⟩

/-! ## Tag filter splitting (C2) -/

/-- The claim's own description of tag filtering, stated from the
specification's words for comparison with the code's `filterNodes`:
split the filter value on the RIGHTMOST colon into a key glob and a
value glob, strip one pair of surrounding double quotes from the key
portion, and select a node iff some tag pair of the node matches both
anchored shell globs. -/
def specTagSelect (filterval : String) (n : Node) : Bool :=
  match lastIdxOf ':' filterval.toList with
  | none => false
  | some p =>
    n.vmTags.any (fun kv =>
      fnmatchMatches (pyStripQuotes (String.mk (filterval.toList.take p))) kv.1 &&
      fnmatchMatches (String.mk (filterval.toList.drop (p + 1))) kv.2)

/-- C2 counterexample: for the tag filter value `:v` the rightmost
colon is at position 0, so the claim's split yields key glob `""` and
value glob `"v"`, which selects a node carrying the tag pair
`("", "v")`. The code's `if pos:` treats position 0 as falsy, leaves
both parts empty, logs a bad-filter error and selects nothing. -/
theorem C2_leading_colon_counterexample :
    specTagSelect ":v" { hydrated := true, vmTags := [("", "v")] } = true ∧
    filterNodes [{ hydrated := true, vmTags := [("", "v")] }] "tags" ":v" = some [] := by
  decide

/-- The tag branch of `_filter` over hydrated nodes keeps exactly the
nodes with a tag pair matching both globs. -/
theorem filterTagsNodes_hydrated (fkey fval : String) (nodes : List Node)
    (h : ∀ n ∈ nodes, n.hydrated = true) :
    filterTagsNodes fkey fval nodes =
      some (nodes.filter (fun n => filterTagsPred n.vmTags fkey fval)) := by
  induction nodes with
  | nil => simp [filterTagsNodes]
  | cons n t ih =>
    have hn : n.hydrated = true := h n (by simp)
    have ht : ∀ m ∈ t, m.hydrated = true := fun m hm => h m (by simp [hm])
    by_cases hpred : filterTagsPred n.vmTags fkey fval = true <;>
      simp [filterTagsNodes, nodeTags, hn, ih ht, List.filter_cons, hpred]

/-- C2 (amended): for a tag filter value containing a colon, the filter
splits the value on the rightmost colon into a key glob and a value
glob and strips the first and last characters of the key portion when
both are double quotes, EXCEPT that a rightmost colon at position 0 is
treated as a malformed filter selecting no node (so is a split whose
stripped key and value are both empty); in the well-formed case a
hydrated node is selected iff some tag pair matches both anchored
globs. -/
theorem C2_tag_filter_split (nodes : List Node) (fv : String) (p : Nat)
    (hp : lastIdxOf ':' fv.toList = some p)
    (hall : ∀ n ∈ nodes, n.hydrated = true) :
    (p = 0 → filterNodes nodes "tags" fv = some []) ∧
    (0 < p →
      filterNodes nodes "tags" fv =
        some (if pyStripQuotes (String.mk (fv.toList.take p)) = "" ∧
                 String.mk (fv.toList.drop (p + 1)) = "" then []
              else nodes.filter (fun n =>
                filterTagsPred n.vmTags (pyStripQuotes (String.mk (fv.toList.take p)))
                  (String.mk (fv.toList.drop (p + 1)))))) := by
  constructor
  · rintro rfl
    have hp2 : lastIdxOf ':' fv.data = some 0 := hp
    simp [filterNodes, filterTagsSplit, hp2]
  · intro hpos
    obtain ⟨q, rfl⟩ : ∃ q, p = q + 1 := ⟨p - 1, by omega⟩
    have hp2 : lastIdxOf ':' fv.data = some (q + 1) := hp
    by_cases hcond : pyStripQuotes (String.mk (fv.toList.take (q + 1))) = "" ∧
        String.mk (fv.toList.drop (q + 1 + 1)) = ""
    · have hcond2 : pyStripQuotes (String.mk (List.take (q + 1) fv.data)) = "" ∧
          String.mk (List.drop (q + 1 + 1) fv.data) = "" := hcond
      simp [filterNodes, filterTagsSplit, hp2, hcond, hcond2]
    · have hcond2 : ¬(pyStripQuotes (String.mk (List.take (q + 1) fv.data)) = "" ∧
          String.mk (List.drop (q + 1 + 1) fv.data) = "") := hcond
      have hsplit : filterTagsSplit fv =
          some (TagSplit.kv (pyStripQuotes (String.mk (fv.toList.take (q + 1))))
            (String.mk (fv.toList.drop (q + 1 + 1)))) := by
        simp [filterTagsSplit, hp2, hcond2]
      simp [filterNodes, hsplit, filterTagsNodes_hydrated _ _ nodes hall, hcond, hcond2]

/-- Witness for the amended C2 at the documented example: `tags=a:b:c`
splits into key `a:b` and value `c` and selects a node tagged
`("a:b", "c")`; the quoted form behaves the same after stripping. -/
theorem C2_tag_filter_split_witness :
    filterNodes [{ hydrated := true, vmTags := [("a:b", "c")] }] "tags" "a:b:c" =
      some [{ hydrated := true, vmTags := [("a:b", "c")] }] := by
  have h := (C2_tag_filter_split [{ hydrated := true, vmTags := [("a:b", "c")] }]
    "a:b:c" 3 (by decide) (by decide)).2 (by decide)
  rw [h]
  decide

/-! ## Unassigned sweep (C9) -/

theorem groupsAppend_cons (p : String × List Entry) (t : List (String × List Entry))
    (name : String) (es : List Entry) :
    groupsAppend (p :: t) name es =
      (if p.1 = name then (p.1, p.2 ++ es) else p) :: groupsAppend t name es := by
  simp [groupsAppend]

theorem lookup_groupsAppend_self (gs : List (String × List Entry)) (name : String)
    (es : List Entry) : ∀ l, gs.lookup name = some l →
    (groupsAppend gs name es).lookup name = some (l ++ es) := by
  induction gs with
  | nil => intro l h; simp [List.lookup] at h
  | cons p t ih =>
    intro l h
    rw [groupsAppend_cons]
    by_cases hk : p.1 = name
    · rw [if_pos hk]
      have hbeq : (name == p.1) = true := by simp [hk]
      have hl : p.2 = l := by simpa [List.lookup, hbeq] using h
      simp [List.lookup, hbeq, hl]
    · have hbeq : (name == p.1) = false := beq_eq_false_iff_ne.mpr (fun hh => hk hh.symm)
      rw [if_neg hk]
      have h2 : t.lookup name = some l := by simpa [List.lookup, hbeq] using h
      simpa [List.lookup, hbeq] using ih l h2

theorem lookup_groupsAppend_isSome (gs : List (String × List Entry)) (name k : String)
    (es : List Entry) :
    ((groupsAppend gs name es).lookup k).isSome = (gs.lookup k).isSome := by
  induction gs with
  | nil => simp [groupsAppend]
  | cons p t ih =>
    rw [groupsAppend_cons]
    by_cases hn : p.1 = name
    · rw [if_pos hn]
      by_cases hk : k = p.1
      · have hbeq : (k == p.1) = true := by simp [hk]
        simp [List.lookup, hbeq]
      · have hbeq : (k == p.1) = false := beq_eq_false_iff_ne.mpr hk
        simpa [List.lookup, hbeq] using ih
    · rw [if_neg hn]
      by_cases hk : k = p.1
      · have hbeq : (k == p.1) = true := by simp [hk]
        simp [List.lookup, hbeq]
      · have hbeq : (k == p.1) = false := beq_eq_false_iff_ne.mpr hk
        simpa [List.lookup, hbeq] using ih

theorem processClusters_lookup_isSome (cs : List ClusterTemplate) (names : List String) :
    ∀ (gs : List (String × List Entry)) (st : List Node) (gs2 : List (String × List Entry))
      (st2 : List Node), processClusters cs names gs st = some (gs2, st2) →
      ∀ k, (gs2.lookup k).isSome = (gs.lookup k).isSome := by
  induction names with
  | nil =>
    intro gs st gs2 st2 h k
    simp only [processClusters, Option.some.injEq, Prod.mk.injEq] at h
    rw [← h.1]
  | cons name rest ih =>
    intro gs st gs2 st2 h k
    simp only [processClusters] at h
    match hl : lookupTemplate cs name with
    | none =>
      rw [hl] at h
      exact absurd h (by simp)
    | some t =>
      rw [hl] at h
      dsimp only at h
      match hp : processCluster t st with
      | none =>
        rw [hp] at h
        exact absurd h (by simp)
      | some q =>
        rw [hp] at h
        dsimp only at h
        have := ih (groupsAppend gs name q.2) q.1 gs2 st2 h k
        rw [this, lookup_groupsAppend_isSome]

theorem lookup_map_nil_isSome (names : List String) (k : String) (h : k ∈ names) :
    (((names.map (fun n => (n, ([] : List Entry)))).lookup k)).isSome = true := by
  induction names with
  | nil => simp at h
  | cons n t ih =>
    by_cases hk : k = n
    · have hbeq : (k == n) = true := by simp [hk]
      simp [List.lookup, hbeq]
    · have hbeq : (k == n) = false := beq_eq_false_iff_ne.mpr hk
      have hmem : k ∈ t := by
        rcases List.mem_cons.mp h with h1 | h1
        · exact absurd h1 hk
        · exact h1
      simpa [List.lookup, hbeq] using ih hmem

theorem initGroups_unassigned_isSome (s : ClusterState) :
    ((initGroups s).lookup "Unassigned").isSome = true := by
  apply lookup_map_nil_isSome
  apply List.mem_dedup.mpr
  exact List.mem_cons_self _ _

/-- C9 counterexample: with a current cluster selected
(`self.cur_cluster` truthy) the final `if not self.cur_cluster:` sweep
is skipped, so an inventory node claimed by no cluster appears in no
group at all — the reserved `Unassigned` group stays empty. -/
theorem C9_cur_cluster_counterexample :
    (get_current_nodes_by_cluster
        { clusters := [{ name := "web", region := "r" }]
          curCluster := "web"
          region := "r"
          nodecache := [("r", [{ hydrated := true, vmTags := [("x", "y")] }])] }).map
      (fun r => ((nodeAt r.nodes 0).clusterName, r.groups.lookup "Unassigned")) =
      some ("", some []) := by
  decide

/-- C9 (amended): when NO current cluster is selected, every inventory
node that ends the resolution pass claimed by no cluster (falsy cluster
field) appears in the reserved `Unassigned` group of the returned node
sets. -/
theorem C9_unassigned_sweep (s : ClusterState) (r : ResolveResult)
    (hcur : s.curCluster = "") (hres : get_current_nodes_by_cluster s = some r)
    (i : Nat) (hi : i < r.nodes.length)
    (hun : (nodeAt r.nodes i).clusterName = "") :
    ∃ l, r.groups.lookup "Unassigned" = some l ∧ Entry.inv i ∈ l := by
  simp only [get_current_nodes_by_cluster] at hres
  match hm : processClusters s.clusters (clustersToProcess s) (initGroups s)
      (resolveNodes0 s) with
  | none => rw [hm] at hres; exact absurd hres (by simp)
  | some p =>
    rw [hm] at hres
    simp only [Option.some.injEq] at hres
    have hsome : (p.1.lookup "Unassigned").isSome = true := by
      rw [processClusters_lookup_isSome s.clusters (clustersToProcess s) (initGroups s)
        (resolveNodes0 s) p.1 p.2 (by rw [hm]) "Unassigned"]
      exact initGroups_unassigned_isSome s
    obtain ⟨l0, hl0⟩ := Option.isSome_iff_exists.mp hsome
    have hnodes : r.nodes = p.2 := by rw [← hres]
    have hgroups : r.groups = groupsAppend p.1 "Unassigned" (unassignedSweep p.2) := by
      rw [← hres]
      simp [hcur]
    refine ⟨l0 ++ unassignedSweep p.2, ?_, ?_⟩
    · rw [hgroups]
      exact lookup_groupsAppend_self p.1 "Unassigned" (unassignedSweep p.2) l0 hl0
    · apply List.mem_append_right
      apply List.mem_map.mpr
      refine ⟨i, ?_, rfl⟩
      apply List.mem_filter.mpr
      constructor
      · exact List.mem_range.mpr (by rw [← hnodes]; exact hi)
      · rw [← hnodes]
        simp [hun]

/-- Witness for the amended C9: the scenario-A state has no current
cluster; its untagged inventory node 2 ends the pass unclaimed and is
found in the `Unassigned` group. -/
theorem C9_unassigned_sweep_witness :
    ∃ l, List.lookup "Unassigned"
        (ResolveResult.groups ((get_current_nodes_by_cluster scenarioAState).getD
          { groups := [], nodes := [], fetched := false, st := scenarioAState })) = some l ∧
      Entry.inv 2 ∈ l := by
  have hres : get_current_nodes_by_cluster scenarioAState =
      some ((get_current_nodes_by_cluster scenarioAState).getD
        { groups := [], nodes := [], fetched := false, st := scenarioAState }) := by decide
  exact C9_unassigned_sweep scenarioAState _ (by decide) hres 2 (by decide) (by decide)

/-! ## Demultiplexer disconnect (C6) -/

theorem mem_keys_of_lookup (l : List (Nat × Term)) (c : Nat) (t : Term)
    (h : l.lookup c = some t) : c ∈ l.map Prod.fst := by
  induction l with
  | nil => simp [List.lookup] at h
  | cons p rest ih =>
    by_cases hk : c = p.1
    · simp [hk]
    · have hbeq : (c == p.1) = false := beq_eq_false_iff_ne.mpr hk
      simp only [List.lookup, hbeq] at h
      simp [ih h]

theorem lookup_filter_fst_ne (l : List (Nat × Term)) (c : Nat) :
    (l.filter (fun p => p.1 ≠ c)).lookup c = none := by
  induction l with
  | nil => rfl
  | cons p rest ih =>
    by_cases hp : p.1 = c
    · simpa [List.filter_cons, hp] using ih
    · have hbeq : (c == p.1) = false := beq_eq_false_iff_ne.mpr (fun hh => hp hh.symm)
      simpa [List.filter_cons, hp, List.lookup, hbeq] using ih

theorem chanKeys_updateBuf (st : DemuxState) (c : Nat) (b : String) :
    (updateBuf st c b).chans.map Prod.fst = st.chans.map Prod.fst := by
  simp only [updateBuf, List.map_map]
  apply List.map_congr_left
  intro p _
  by_cases hp : p.1 = c <;> simp [hp]

theorem procReady_props : ∀ (r : List (Nat × RecvRes)) (st : DemuxState)
    (acc outs : List Delivery) (ost : Option DemuxState),
    procReady st acc r = (outs, ost) →
    (∀ d ∈ outs, d ∈ acc ∨ ∀ c, deliveryChan d = some c → c ∈ st.chans.map Prod.fst) ∧
    (∀ st2, ost = some st2 → ∀ c, c ∈ st2.chans.map Prod.fst → c ∈ st.chans.map Prod.fst) := by
  intro r
  induction r with
  | nil =>
    intro st acc outs ost h
    simp only [procReady, Prod.mk.injEq] at h
    obtain ⟨h1, h2⟩ := h
    subst h1
    subst h2
    constructor
    · intro d hd
      exact Or.inl hd
    · intro st2 hst2 c hc
      simp only [Option.some.injEq] at hst2
      rw [hst2]
      exact hc
  | cons x rest ih =>
    intro st acc outs ost h
    match x with
    | (c, RecvRes.timeout) =>
      simp only [procReady] at h
      exact ih st acc outs ost h
    | (c, RecvRes.bytes b) =>
      by_cases hb : b = ""
      · subst hb
        simp only [procReady] at h
        rw [if_pos trivial] at h
        match hs : demuxStop st c with
        | none =>
          rw [hs] at h
          simp only [Prod.mk.injEq] at h
          obtain ⟨h1, h2⟩ := h
          subst h1
          constructor
          · intro d hd
            rcases List.mem_append.mp hd with h3 | h3
            · exact Or.inl h3
            · right
              intro c2 htag
              simp only [List.mem_singleton] at h3
              rw [h3] at htag
              simp [deliveryChan] at htag
          · intro st2 hst2
            rw [← h2] at hst2
            simp at hst2
        | some stD =>
          rw [hs] at h
          simp only [Prod.mk.injEq] at h
          obtain ⟨h1, h2⟩ := h
          subst h1
          constructor
          · intro d hd
            rcases List.mem_append.mp hd with h3 | h3
            · exact Or.inl h3
            · right
              intro c2 htag
              simp only [List.mem_singleton] at h3
              rw [h3] at htag
              simp [deliveryChan] at htag
          · intro st2 hst2 c2 hc2
            rw [← h2] at hst2
            simp only [Option.some.injEq] at hst2
            rw [← hst2] at hc2
            simp only [demuxStop] at hs
            match hl : st.chans.lookup c with
            | none => rw [hl] at hs; exact absurd hs (by simp)
            | some tt =>
              rw [hl] at hs
              simp only [Option.some.injEq] at hs
              rw [← hs] at hc2
              simp only at hc2
              rcases List.mem_map.mp hc2 with ⟨p, hp, hfst⟩
              rw [← hfst]
              exact List.mem_map_of_mem Prod.fst (List.mem_of_mem_filter hp)
      · simp only [procReady] at h
        rw [if_neg hb] at h
        match hl : st.chans.lookup c with
        | none =>
          rw [hl] at h
          dsimp only at h
          simp only [Prod.mk.injEq] at h
          obtain ⟨h1, h2⟩ := h
          subst h1
          constructor
          · intro d hd
            exact Or.inl hd
          · intro st2 hst2
            rw [← h2] at hst2
            simp at hst2
        | some t =>
          rw [hl] at h
          dsimp only at h
          by_cases hraw : t.rawShellMode = true
          · rw [if_pos hraw] at h
            have hrec := ih st (acc ++ [Delivery.rawConsole c b]) outs ost h
            constructor
            · intro d hd
              rcases hrec.1 d hd with h1 | h1
              · rcases List.mem_append.mp h1 with h2 | h2
                · exact Or.inl h2
                · right
                  intro c2 htag
                  simp only [List.mem_singleton] at h2
                  rw [h2] at htag
                  simp only [deliveryChan, Option.some.injEq] at htag
                  rw [← htag]
                  exact mem_keys_of_lookup st.chans c t hl
              · exact Or.inr h1
            · exact hrec.2
          · rw [if_neg hraw] at h
            have hrec := ih (updateBuf st c b) (acc ++ [Delivery.buffer c b]) outs ost h
            constructor
            · intro d hd
              rcases hrec.1 d hd with h1 | h1
              · rcases List.mem_append.mp h1 with h2 | h2
                · exact Or.inl h2
                · right
                  intro c2 htag
                  simp only [List.mem_singleton] at h2
                  rw [h2] at htag
                  simp only [deliveryChan, Option.some.injEq] at htag
                  rw [← htag]
                  exact mem_keys_of_lookup st.chans c t hl
              · right
                intro c2 htag
                have := h1 c2 htag
                rwa [chanKeys_updateBuf] at this
            · intro st2 hst2 c2 hc2
              have := hrec.2 st2 hst2 c2 hc2
              rwa [chanKeys_updateBuf] at this

theorem procErrs_subset : ∀ (e : List Nat) (st st2 : DemuxState),
    procErrs st e = some st2 →
    ∀ c, c ∈ st2.chans.map Prod.fst → c ∈ st.chans.map Prod.fst := by
  intro e
  induction e with
  | nil =>
    intro st st2 h c hc
    simp only [procErrs, Option.some.injEq] at h
    rw [h]
    exact hc
  | cons x rest ih =>
    intro st st2 h c hc
    simp only [procErrs] at h
    match hs : demuxStop st x with
    | none => rw [hs] at h; exact absurd h (by simp)
    | some stD =>
      rw [hs] at h
      have hsub := ih stD st2 h c hc
      simp only [demuxStop] at hs
      match hl : st.chans.lookup x with
      | none => rw [hl] at hs; exact absurd hs (by simp)
      | some tt =>
        rw [hl] at hs
        simp only [Option.some.injEq] at hs
        rw [← hs] at hsub
        simp only at hsub
        rcases List.mem_map.mp hsub with ⟨p, hp, hfst⟩
        rw [← hfst]
        exact List.mem_map_of_mem Prod.fst (List.mem_of_mem_filter hp)

theorem flushTerm_tag (c : Nat) (t : Term) :
    ∀ d ∈ (flushTerm c t).2.1, ∀ c2, deliveryChan d = some c2 → c2 = c := by
  intro d hd c2 htag
  by_cases h1 : t.recvbuf = ""
  · simp [flushTerm, h1] at hd
  · by_cases h2 : t.rawShellMode = true
    · simp [flushTerm, h1, h2] at hd
    · by_cases h3 : (applyGuidSuppression t).recvbuf.trim ≠ ""
      · simp only [flushTerm, if_neg h1, if_neg h2, if_pos h3, List.mem_singleton] at hd
        rw [hd] at htag
        simp only [deliveryChan, Option.some.injEq] at htag
        exact htag.symm
      · simp [flushTerm, h1, h2, h3] at hd

theorem flushChans_props : ∀ (l : List (Nat × Term)),
    (flushChans l).1.map Prod.fst = l.map Prod.fst ∧
    ∀ d ∈ (flushChans l).2.1, ∀ c, deliveryChan d = some c → c ∈ l.map Prod.fst := by
  intro l
  induction l with
  | nil => simp [flushChans]
  | cons p rest ih =>
    match p with
    | (c, t) =>
      constructor
      · simp only [flushChans, List.map_cons]
        rw [ih.1]
      · intro d hd c2 htag
        simp only [flushChans] at hd
        rcases List.mem_append.mp hd with h1 | h1
        · have := flushTerm_tag c t d h1 c2 htag
          simp [this]
        · have := ih.2 d h1 c2 htag
          simp [this]

theorem flushAll_props (st : DemuxState) :
    (flushAll st).1.chans.map Prod.fst = st.chans.map Prod.fst ∧
    ∀ d ∈ (flushAll st).2, ∀ c, deliveryChan d = some c → c ∈ st.chans.map Prod.fst := by
  constructor
  · simp only [flushAll]
    exact (flushChans_props st.chans).1
  · intro d hd c htag
    simp only [flushAll] at hd
    by_cases hcb : (flushChans st.chans).2.2 && st.hasRefreshCallback
    · rw [if_pos hcb] at hd
      rcases List.mem_append.mp hd with h1 | h1
      · exact (flushChans_props st.chans).2 d h1 c htag
      · simp only [List.mem_singleton] at h1
        rw [h1] at htag
        simp [deliveryChan] at htag
    · rw [if_neg hcb] at hd
      exact (flushChans_props st.chans).2 d hd c htag

theorem demuxStepCore_props (st : DemuxState) (r : List (Nat × RecvRes)) (e : List Nat)
    (outs : List Delivery) (ost : Option DemuxState)
    (h : demuxStepCore st r e = (outs, ost)) :
    (∀ d ∈ outs, ∀ c, deliveryChan d = some c → c ∈ st.chans.map Prod.fst) ∧
    (∀ st2, ost = some st2 → ∀ c, c ∈ st2.chans.map Prod.fst → c ∈ st.chans.map Prod.fst) := by
  simp only [demuxStepCore] at h
  match hpr : procReady st [] r with
  | (outs1, none) =>
    rw [hpr] at h
    dsimp only at h
    simp only [Prod.mk.injEq] at h
    obtain ⟨h1, h2⟩ := h
    subst h1
    have hpp := procReady_props r st [] outs1 none hpr
    constructor
    · intro d hd c htag
      rcases hpp.1 d hd with hk | hk
      · simp at hk
      · exact hk c htag
    · intro st2 hst2
      rw [← h2] at hst2
      simp at hst2
  | (outs1, some st1) =>
    rw [hpr] at h
    dsimp only at h
    have hpp := procReady_props r st [] outs1 (some st1) hpr
    match hpe : procErrs st1 e with
    | none =>
      rw [hpe] at h
      simp only [Prod.mk.injEq] at h
      obtain ⟨h1, h2⟩ := h
      subst h1
      constructor
      · intro d hd c htag
        rcases hpp.1 d hd with hk | hk
        · simp at hk
        · exact hk c htag
      · intro st2 hst2
        rw [← h2] at hst2
        simp at hst2
    | some st2 =>
      rw [hpe] at h
      dsimp only at h
      have hsub1 : ∀ c, c ∈ st2.chans.map Prod.fst → c ∈ st.chans.map Prod.fst := by
        intro c hc
        exact hpp.2 st1 rfl c (procErrs_subset e st1 st2 hpe c hc)
      by_cases hidle : r.isEmpty && e.isEmpty
      · rw [if_pos hidle] at h
        simp only [Prod.mk.injEq] at h
        obtain ⟨h1, h2⟩ := h
        subst h1
        constructor
        · intro d hd c htag
          rcases List.mem_append.mp hd with hk | hk
          · rcases hpp.1 d hk with hk2 | hk2
            · simp at hk2
            · exact hk2 c htag
          · exact hsub1 c ((flushAll_props st2).2 d hk c htag)
        · intro st3 hst3
          rw [← h2] at hst3
          simp only [Option.some.injEq] at hst3
          intro c hc
          rw [← hst3] at hc
          rw [(flushAll_props st2).1] at hc
          exact hsub1 c hc
      · rw [if_neg hidle] at h
        simp only [Prod.mk.injEq] at h
        obtain ⟨h1, h2⟩ := h
        subst h1
        constructor
        · intro d hd c htag
          rcases hpp.1 d hd with hk | hk
          · simp at hk
          · exact hk c htag
        · intro st3 hst3
          rw [← h2] at hst3
          simp only [Option.some.injEq] at hst3
          intro c hc
          rw [← hst3] at hc
          exact hsub1 c hc

theorem demuxStep_props (st : DemuxState) (inp : Nat → ChanInput)
    (outs : List Delivery) (ost : Option DemuxState)
    (h : demuxStep st inp = (outs, ost)) :
    (∀ d ∈ outs, ∀ c, deliveryChan d = some c → c ∈ st.chans.map Prod.fst) ∧
    (∀ st2, ost = some st2 → ∀ c, c ∈ st2.chans.map Prod.fst → c ∈ st.chans.map Prod.fst) :=
  demuxStepCore_props st (selectReady st inp) (selectErrs st inp) outs ost h

/-- Once a channel is deregistered, no later iteration of the receive
loop delivers bytes tagged with it, whatever the sockets produce. -/
theorem runDemux_no_delivery (c : Nat) : ∀ (trace : List (Nat → ChanInput)) (st : DemuxState),
    c ∉ st.chans.map Prod.fst →
    ∀ d ∈ (runDemux st trace).1, deliveryChan d ≠ some c := by
  intro trace
  induction trace with
  | nil =>
    intro st hc d hd
    simp [runDemux] at hd
  | cons i is ih =>
    intro st hc d hd
    simp only [runDemux] at hd
    match hstep : demuxStep st i with
    | (outs, none) =>
      rw [hstep] at hd
      dsimp only at hd
      intro htag
      exact hc ((demuxStep_props st i outs none hstep).1 d hd c htag)
    | (outs, some st2) =>
      rw [hstep] at hd
      dsimp only at hd
      rcases List.mem_append.mp hd with h1 | h1
      · intro htag
        exact hc ((demuxStep_props st i outs (some st2) hstep).1 d h1 c htag)
      · have hc2 : c ∉ st2.chans.map Prod.fst := by
          intro hmem
          exact hc ((demuxStep_props st i outs (some st2) hstep).2 st2 rfl c hmem)
        exact ih st2 hc2 d h1

/-- C6: a zero-length read on a registered channel makes the
demultiplexer iteration print the disconnect notice, deregister the
channel and remove its session from the session registry; afterwards no
iteration ever delivers bytes from that channel to a buffer or the
console, whatever the underlying socket produces on any later select. -/
theorem C6_zero_read_disconnect (st : DemuxState) (c : Nat) (t : Term)
    (inp : Nat → ChanInput)
    (hreg : st.chans.lookup c = some t)
    (hc : inp c = { ready := some (RecvRes.bytes ""), errFlag := false })
    (hother : ∀ c2, c2 ≠ c → inp c2 = { ready := none, errFlag := false }) :
    ∃ st2, demuxStep st inp = ([Delivery.disconnectNotice], some st2) ∧
      st2.chans.lookup c = none ∧
      (∀ p ∈ st2.sessionMap, p.2 ≠ c) ∧
      ∀ (trace : List (Nat → ChanInput)) (d : Delivery),
        d ∈ (runDemux st2 trace).1 → deliveryChan d ≠ some c := by
  have he : selectErrs st inp = [] := by
    apply List.filter_eq_nil_iff.mpr
    intro k _
    by_cases hkc : k = c
    · subst hkc
      rw [hc]
      simp
    · rw [hother k hkc]
      simp
  have hall : ∀ x ∈ selectReady st inp, x = (c, RecvRes.bytes "") := by
    intro x hx
    simp only [selectReady] at hx
    rcases List.mem_filterMap.mp hx with ⟨k, _, hf⟩
    by_cases hkc : k = c
    · subst hkc
      rw [hc] at hf
      have hrd : ({ ready := some (RecvRes.bytes ""), errFlag := false } : ChanInput).ready =
          some (RecvRes.bytes "") := rfl
      rw [hrd] at hf
      exact (Option.some.inj hf).symm
    · rw [hother k hkc] at hf
      have hrd : ({ ready := none, errFlag := false } : ChanInput).ready = none := rfl
      rw [hrd] at hf
      simp at hf
  have hmemk : c ∈ st.chans.map Prod.fst := mem_keys_of_lookup st.chans c t hreg
  have hne : selectReady st inp ≠ [] := by
    intro hnil
    have hmem : (c, RecvRes.bytes "") ∈ selectReady st inp := by
      simp only [selectReady]
      apply List.mem_filterMap.mpr
      refine ⟨c, hmemk, ?_⟩
      rw [hc]
      rfl
    rw [hnil] at hmem
    simp at hmem
  match hsel : selectReady st inp with
  | [] => exact absurd hsel hne
  | x :: r2 =>
    have hx : x = (c, RecvRes.bytes "") := hall x (by rw [hsel]; exact List.mem_cons_self _ _)
    have hsel2 : selectReady st inp = (c, RecvRes.bytes "") :: r2 := by rw [hsel, hx]
    refine ⟨{ chans := st.chans.filter (fun p => p.1 ≠ c)
              sessionMap := st.sessionMap.filter (fun p => p.2 ≠ c)
              hasRefreshCallback := st.hasRefreshCallback }, ?_, ?_, ?_, ?_⟩
    · rw [demuxStep, hsel2, he]
      simp [demuxStepCore, procReady, demuxStop, hreg, procErrs]
    · exact lookup_filter_fst_ne st.chans c
    · intro p hp
      have := (List.mem_filter.mp hp).2
      simpa using this
    · intro trace d hd
      apply runDemux_no_delivery c trace _ _ d hd
      intro hmem
      rcases List.mem_map.mp hmem with ⟨p, hp, hfst⟩
      have := (List.mem_filter.mp hp).2
      rw [hfst] at this
      simp at this

/-- Witness for C6 at a concrete state: channel 1 carrying session of
node `n1` reads zero bytes; the step removes it and the registry entry,
and a later iteration where the socket produces data for channel 1
delivers nothing for it. -/
theorem C6_zero_read_disconnect_witness :
    ∃ st2, demuxStep { chans := [(1, { nodeName := "n1" })], sessionMap := [("n1", 1)] }
        (fun c => if c = 1 then { ready := some (RecvRes.bytes "") } else {}) =
        ([Delivery.disconnectNotice], some st2) ∧
      st2.chans.lookup 1 = none ∧
      (∀ p ∈ st2.sessionMap, p.2 ≠ 1) ∧
      ∀ (trace : List (Nat → ChanInput)) (d : Delivery),
        d ∈ (runDemux st2 trace).1 → deliveryChan d ≠ some 1 :=
  C6_zero_read_disconnect
    { chans := [(1, { nodeName := "n1" })], sessionMap := [("n1", 1)] } 1
    { nodeName := "n1" }
    (fun c => if c = 1 then { ready := some (RecvRes.bytes "") } else {})
    (by decide) (by simp) (fun c2 h => by simp [h])

/-! ## Reconciliation per specification (C1) -/

theorem length_setNode (st : List Node) (i : Nat) (f : Node → Node) :
    (setNode st i f).length = st.length := by
  simp [setNode]

theorem length_assignAll (cn : String) (spec : NodeSpec) :
    ∀ (idxs : List Nat) (st : List Node),
      (assignAll cn spec st idxs).length = st.length := by
  intro idxs
  induction idxs with
  | nil => intro st; simp [assignAll]
  | cons j rest ih =>
    intro st
    simp only [assignAll, List.foldl_cons]
    have := ih (setNode st j (assignSpec cn spec))
    simp only [assignAll] at this
    rw [this, length_setNode]

theorem nodeAt_setNode_self (st : List Node) (i : Nat) (f : Node → Node)
    (h : i < st.length) : nodeAt (setNode st i f) i = f (nodeAt st i) := by
  simp [setNode, nodeAt, List.getD_eq_getElem?_getD, List.getElem?_set_self, h]

theorem nodeAt_setNode_other (st : List Node) (i j : Nat) (f : Node → Node)
    (h : j ≠ i) : nodeAt (setNode st i f) j = nodeAt st j := by
  simp [setNode, nodeAt, List.getD_eq_getElem?_getD, List.getElem?_set_ne (fun hh => h hh.symm)]

theorem assignSpec_name (cn : String) (spec : NodeSpec) (n : Node) :
    (assignSpec cn spec n).name = spec.nodename := by
  rcases hu : spec.username with _ | u <;> rcases hk : spec.keyfile with _ | k <;>
    simp [assignSpec, hu, hk] <;> split_ifs <;> rfl

theorem assignSpec_clusterName (cn : String) (spec : NodeSpec) (n : Node) :
    (assignSpec cn spec n).clusterName = cn := by
  rcases hu : spec.username with _ | u <;> rcases hk : spec.keyfile with _ | k <;>
    simp [assignSpec, hu, hk] <;> split_ifs <;> rfl

theorem assignSpec_username (cn : String) (spec : NodeSpec) (n : Node) :
    (assignSpec cn spec n).username =
      (match spec.username with
       | some u => if u ≠ "" then u else n.username
       | none => n.username) := by
  rcases hu : spec.username with _ | u <;> rcases hk : spec.keyfile with _ | k <;>
    simp [assignSpec, hu, hk] <;> split_ifs <;> rfl

theorem assignSpec_keyfile (cn : String) (spec : NodeSpec) (n : Node) :
    (assignSpec cn spec n).keyfile =
      (match spec.keyfile with
       | some k => if k ≠ "" then k else n.keyfile
       | none => n.keyfile) := by
  rcases hu : spec.username with _ | u <;> rcases hk : spec.keyfile with _ | k <;>
    simp [assignSpec, hu, hk] <;> split_ifs <;> rfl

theorem assignSpec_immut (cn : String) (spec : NodeSpec) (n : Node) :
    (assignSpec cn spec n).hydrated = n.hydrated ∧
    (assignSpec cn spec n).vmTags = n.vmTags ∧
    (assignSpec cn spec n).vmProps = n.vmProps ∧
    (assignSpec cn spec n).key = n.key := by
  rcases hu : spec.username with _ | u <;> rcases hk : spec.keyfile with _ | k <;>
    (simp only [assignSpec, hu, hk]; try split_ifs) <;> simp

theorem assignSpec_idem (cn : String) (spec : NodeSpec) (n : Node) :
    assignSpec cn spec (assignSpec cn spec n) = assignSpec cn spec n := by
  rcases hu : spec.username with _ | u <;> rcases hk : spec.keyfile with _ | k <;>
    (simp only [assignSpec, hu, hk]; try split_ifs) <;> rfl

theorem nodeAt_assignAll (cn : String) (spec : NodeSpec) :
    ∀ (idxs : List Nat) (st : List Node) (i : Nat), i < st.length →
      nodeAt (assignAll cn spec st idxs) i =
        if i ∈ idxs then assignSpec cn spec (nodeAt st i) else nodeAt st i := by
  intro idxs
  induction idxs with
  | nil =>
    intro st i hi
    simp [assignAll]
  | cons j rest ih =>
    intro st i hi
    simp only [assignAll, List.foldl_cons]
    have hlen : i < (setNode st j (assignSpec cn spec)).length := by
      rw [length_setNode]; exact hi
    have step := ih (setNode st j (assignSpec cn spec)) i hlen
    simp only [assignAll] at step
    rw [step]
    by_cases hij : i = j
    · subst hij
      rw [nodeAt_setNode_self st i (assignSpec cn spec) hi]
      by_cases hmem : i ∈ rest
      · simp [hmem, assignSpec_idem]
      · simp [hmem]
    · rw [nodeAt_setNode_other st j i (assignSpec cn spec) hij]
      by_cases hmem : i ∈ rest
      · simp [hmem, List.mem_cons, hij]
      · simp [hmem, List.mem_cons, hij]

theorem filterTagsIdx_subset (st : List Node) (fkey fval : String) :
    ∀ (idxs res : List Nat), filterTagsIdx st fkey fval idxs = some res →
      ∀ i ∈ res, i ∈ idxs := by
  intro idxs
  induction idxs with
  | nil =>
    intro res h i hi
    simp only [filterTagsIdx, Option.some.injEq] at h
    rw [← h] at hi
    simp at hi
  | cons j rest ih =>
    intro res h i hi
    simp only [filterTagsIdx] at h
    match ht : nodeTags (nodeAt st j) with
    | none => rw [ht] at h; exact absurd h (by simp)
    | some tags =>
      rw [ht] at h
      dsimp only at h
      match hrec : filterTagsIdx st fkey fval rest with
      | none => rw [hrec] at h; exact absurd h (by simp)
      | some res2 =>
        rw [hrec] at h
        simp only [Option.map_some', Option.some.injEq] at h
        rw [← h] at hi
        by_cases hp : filterTagsPred tags fkey fval = true
        · rw [if_pos hp] at hi
          rcases List.mem_cons.mp hi with h1 | h1
          · simp [h1]
          · simp [ih res2 hrec i h1]
        · rw [if_neg hp] at hi
          simp [ih res2 hrec i hi]

theorem filterIdx_subset (st : List Node) (idxs : List Nat) (fk fv : String)
    (res : List Nat) (h : filterIdx st idxs fk fv = some res) :
    ∀ i ∈ res, i ∈ idxs := by
  intro i hi
  by_cases h1 : fk = ""
  · simp only [filterIdx, if_pos h1, Option.some.injEq] at h
    rw [← h] at hi
    exact hi
  · by_cases h2 : fk = "tags"
    · simp only [filterIdx, if_neg h1, if_pos h2] at h
      match hs : filterTagsSplit fv with
      | none => rw [hs] at h; exact absurd h (by simp)
      | some TagSplit.bad =>
        rw [hs] at h
        simp only [Option.some.injEq] at h
        rw [← h] at hi
        simp at hi
      | some (TagSplit.kv fkey fval) =>
        rw [hs] at h
        exact filterTagsIdx_subset st fkey fval idxs res h i hi
    · simp only [filterIdx, if_neg h1, if_neg h2, Option.some.injEq] at h
      rw [← h] at hi
      exact List.mem_of_mem_filter hi

theorem matchSpecIdx_subset (st : List Node) (cands : List Nat) (spec : NodeSpec)
    (res : List Nat) (h : matchSpecIdx st cands spec = some res) :
    ∀ i ∈ res, i ∈ cands := by
  intro i hi
  simp only [matchSpecIdx] at h
  match hf : specFilterKV spec with
  | none => rw [hf] at h; exact absurd h (by simp)
  | some kv =>
    rw [hf] at h
    exact filterIdx_subset st cands kv.1 kv.2 res h i hi

/-- State transformer of one node specification of the reconciliation
loop: assignments happen only when the selector matches a candidate. -/
def stateAfterSpec (clusterName : String) (cands : List Nat) (st : List Node)
    (spec : NodeSpec) : List Node :=
  match matchSpecIdx st cands spec with
  | none => st
  | some matched => if matched.isEmpty then st else assignAll clusterName spec st matched

/-- State after a prefix of the specification list. -/
def stateAfterSpecs (clusterName : String) (cands : List Nat) :
    List NodeSpec → List Node → List Node
  | [], st => st
  | spec :: rest, st =>
    stateAfterSpecs clusterName cands rest (stateAfterSpec clusterName cands st spec)

/-- The group entries one node specification contributes: the matched
candidates, or one synthesized absent node when nothing matches. -/
def specContribution (clusterName : String) (cands : List Nat) (st : List Node)
    (spec : NodeSpec) : Option (List Entry) :=
  (matchSpecIdx st cands spec).map (fun matched =>
    if matched.isEmpty then [Entry.absent (mkAbsentNode clusterName spec)]
    else matched.map Entry.inv)

theorem take_succ_getD (l : List NodeSpec) : ∀ k, k < l.length →
    l.take (k + 1) = l.take k ++ [l.getD k {}] := by
  induction l with
  | nil => intro k hk; simp at hk
  | cons x t ih =>
    intro k hk
    cases k with
    | zero => simp
    | succ k2 =>
      simp only [List.take_succ_cons, List.getD_cons_succ]
      rw [ih k2 (by simpa using hk)]
      simp

/-- C1: one reconciliation pass over a template's node specifications
decomposes, specification by specification, into per-specification
contributions along the chain of intermediate states: each
specification contributes either all candidates matched by its selector
— each assigned the display name, the optional username/keyfile
overrides and the cluster name by `assignSpec` in the state right after
that specification — or, when zero candidates match, exactly one
synthesized absent node carrying the cluster name; a contribution is
never empty. -/
theorem C1_per_spec_reconciliation (cn : String) (cands : List Nat)
    (specs : List NodeSpec) :
    ∀ (st stF : List Node) (es : List Entry),
      (∀ i ∈ cands, i < st.length) →
      processSpecs cn cands specs st = some (stF, es) →
      stF = stateAfterSpecs cn cands specs st ∧
      ∃ contribs : List (List Entry),
        contribs.length = specs.length ∧
        es = contribs.flatten ∧
        ∀ k, k < specs.length →
          specContribution cn cands (stateAfterSpecs cn cands (specs.take k) st)
              (specs.getD k {}) = some (contribs.getD k []) ∧
          contribs.getD k [] ≠ [] ∧
          ∀ matched,
            matchSpecIdx (stateAfterSpecs cn cands (specs.take k) st) cands
                (specs.getD k {}) = some matched →
            (matched = [] →
              contribs.getD k [] = [Entry.absent (mkAbsentNode cn (specs.getD k {}))] ∧
              (mkAbsentNode cn (specs.getD k {})).clusterName = cn ∧
              (mkAbsentNode cn (specs.getD k {})).hydrated = false) ∧
            (matched ≠ [] →
              contribs.getD k [] = matched.map Entry.inv ∧
              ∀ i ∈ matched,
                nodeAt (stateAfterSpecs cn cands (specs.take (k + 1)) st) i =
                  assignSpec cn (specs.getD k {})
                    (nodeAt (stateAfterSpecs cn cands (specs.take k) st) i)) := by
  induction specs with
  | nil =>
    intro st stF es _ h
    simp only [processSpecs, Option.some.injEq, Prod.mk.injEq] at h
    refine ⟨h.1.symm ▸ rfl, [], by simp, by simp [← h.2], ?_⟩
    intro k hk
    simp at hk
  | cons spec rest ih =>
    intro st stF es hcands h
    simp only [processSpecs] at h
    match hm : matchSpecIdx st cands spec with
    | none => rw [hm] at h; exact absurd h (by simp)
    | some matched =>
      rw [hm] at h
      dsimp only at h
      have hstep0 : stateAfterSpecs cn cands ((spec :: rest).take 0) st = st := by
        simp [stateAfterSpecs]
      by_cases hemp : matched.isEmpty = true
      · rw [if_pos hemp] at h
        match hrec : processSpecs cn cands rest st with
        | none => rw [hrec] at h; exact absurd h (by simp)
        | some p =>
          rw [hrec] at h
          simp only [Option.some.injEq, Prod.mk.injEq] at h
          obtain ⟨h1, h2⟩ := h
          have hafter : stateAfterSpec cn cands st spec = st := by
            simp [stateAfterSpec, hm, hemp]
          obtain ⟨ihst, cs, hlen, hflat, hk⟩ := ih st p.1 p.2 hcands hrec
          have hmnil : matched = [] := List.isEmpty_iff.mp hemp
          refine ⟨?_, [Entry.absent (mkAbsentNode cn spec)] :: cs, by simp [hlen], ?_, ?_⟩
          · rw [← h1]
            simp only [stateAfterSpecs, hafter]
            exact ihst
          · rw [← h2, hflat]
            simp
          · intro k hklt
            cases k with
            | zero =>
              refine ⟨?_, by simp, ?_⟩
              · simp [List.take_zero, List.getD_cons_zero, stateAfterSpecs,
                  specContribution, hm, hemp, hmnil]
              · intro m2 hm2
                simp only [List.take_zero, List.getD_cons_zero, stateAfterSpecs, hm,
                  Option.some.injEq] at hm2
                subst hm2
                constructor
                · intro _
                  exact ⟨by simp, rfl, rfl⟩
                · intro hne
                  exact absurd hmnil hne
            | succ k2 =>
              have hk2 : k2 < rest.length := by simpa using hklt
              have htake : ∀ m : Nat, stateAfterSpecs cn cands ((spec :: rest).take (m + 1)) st =
                  stateAfterSpecs cn cands (rest.take m) st := by
                intro m
                simp only [List.take_succ_cons, stateAfterSpecs, hafter]
              have hfacts := hk k2 hk2
              refine ⟨?_, ?_, ?_⟩
              · rw [htake k2]
                simpa using hfacts.1
              · simpa using hfacts.2.1
              · intro m2 hm2
                rw [htake k2] at hm2
                have hinner := hfacts.2.2 m2 hm2
                constructor
                · intro hmz
                  simpa using hinner.1 hmz
                · intro hne
                  refine ⟨by simpa using (hinner.2 hne).1, ?_⟩
                  intro i hi
                  have := (hinner.2 hne).2 i hi
                  rw [htake (k2 + 1), htake k2]
                  simpa using this
      · rw [if_neg hemp] at h
        match hrec : processSpecs cn cands rest (assignAll cn spec st matched) with
        | none => rw [hrec] at h; exact absurd h (by simp)
        | some p =>
          rw [hrec] at h
          simp only [Option.some.injEq, Prod.mk.injEq] at h
          obtain ⟨h1, h2⟩ := h
          have hafter : stateAfterSpec cn cands st spec = assignAll cn spec st matched := by
            simp [stateAfterSpec, hm, hemp]
          have hcands2 : ∀ i ∈ cands, i < (assignAll cn spec st matched).length := by
            intro i hi
            rw [length_assignAll]
            exact hcands i hi
          obtain ⟨ihst, cs, hlen, hflat, hk⟩ :=
            ih (assignAll cn spec st matched) p.1 p.2 hcands2 hrec
          have hmne : matched ≠ [] := by
            intro hnil
            rw [hnil] at hemp
            simp at hemp
          refine ⟨?_, (matched.map Entry.inv) :: cs, by simp [hlen], ?_, ?_⟩
          · rw [← h1]
            simp only [stateAfterSpecs, hafter]
            exact ihst
          · rw [← h2, hflat]
            simp
          · intro k hklt
            cases k with
            | zero =>
              refine ⟨?_, ?_, ?_⟩
              · simp [List.take_zero, List.getD_cons_zero, stateAfterSpecs,
                  specContribution, hm, hemp, hmne]
              · simp [hmne]
              · intro m2 hm2
                simp only [List.take_zero, List.getD_cons_zero, stateAfterSpecs, hm,
                  Option.some.injEq] at hm2
                subst hm2
                constructor
                · intro hmz
                  exact absurd hmz hmne
                · intro _
                  refine ⟨by simp, ?_⟩
                  intro i hi
                  have hi2 : i < st.length :=
                    hcands i (matchSpecIdx_subset st cands spec matched hm i hi)
                  have htake1 : stateAfterSpecs cn cands ((spec :: rest).take 1) st =
                      assignAll cn spec st matched := by
                    simp only [List.take_succ_cons, List.take_zero, stateAfterSpecs, hafter]
                  simp only [List.getD_cons_zero]
                  rw [htake1, List.take_zero]
                  simp only [stateAfterSpecs]
                  rw [nodeAt_assignAll cn spec matched st i hi2]
                  simp [hi]
            | succ k2 =>
              have hk2 : k2 < rest.length := by simpa using hklt
              have htake : ∀ m : Nat, stateAfterSpecs cn cands ((spec :: rest).take (m + 1)) st =
                  stateAfterSpecs cn cands (rest.take m) (assignAll cn spec st matched) := by
                intro m
                simp only [List.take_succ_cons, stateAfterSpecs, hafter]
              have hfacts := hk k2 hk2
              refine ⟨?_, ?_, ?_⟩
              · rw [htake k2]
                simpa using hfacts.1
              · simpa using hfacts.2.1
              · intro m2 hm2
                rw [htake k2] at hm2
                have hinner := hfacts.2.2 m2 hm2
                constructor
                · intro hmz
                  simpa using hinner.1 hmz
                · intro hne
                  refine ⟨by simpa using (hinner.2 hne).1, ?_⟩
                  intro i hi
                  have := (hinner.2 hne).2 i hi
                  rw [htake (k2 + 1), htake k2]
                  simpa using this

/-- Witness for C1 at a concrete pass: two specifications against one
tagged inventory node; `web1` matches and is assigned, `web3` matches
nothing and contributes one absent placeholder, and the final state is
the specification-chain state. -/
theorem C1_per_spec_reconciliation_witness :
    [({ name := "web1", clusterName := "web", hydrated := true,
        vmTags := [("name", "web1")] } : Node)] =
      stateAfterSpecs "web" [0] [{ nodename := "web1" }, { nodename := "web3" }]
        [{ hydrated := true, vmTags := [("name", "web1")] }] :=
  (C1_per_spec_reconciliation "web" [0] [{ nodename := "web1" }, { nodename := "web3" }]
    [{ hydrated := true, vmTags := [("name", "web1")] }]
    [{ name := "web1", clusterName := "web", hydrated := true, vmTags := [("name", "web1")] }]
    [Entry.inv 0, Entry.absent { name := "web3", clusterName := "web" }]
    (by decide) (by decide)).1

/-! ## Idempotence of resolution (C4)

The pass mutates only the resolver-assigned fields (`name`,
`clusterName`, `username`, `keyfile`); tag filters read only the
immutable `hydrated`/`vmTags` snapshot. `SimNodes` relates two node
states that agree on the immutable snapshot; tag-only matching is
invariant under it. -/

def SimNodes (a b : List Node) : Prop :=
  a.length = b.length ∧
  ∀ i, (nodeAt a i).hydrated = (nodeAt b i).hydrated ∧
    (nodeAt a i).vmTags = (nodeAt b i).vmTags ∧
    (nodeAt a i).key = (nodeAt b i).key ∧
    (nodeAt a i).vmProps = (nodeAt b i).vmProps

/-- A node specification whose effective filter is a well-formed tag
filter (explicit `tags=...` selector or the implicit
`tags=name:<nodename>`). -/
def TagSelectorOK (spec : NodeSpec) : Prop :=
  ∃ fv, specFilterKV spec = some ("tags", fv) ∧ (filterTagsSplit fv).isSome = true

/-- A template whose candidate filter is a well-formed tag filter. -/
def TagFilterOK (t : ClusterTemplate) : Prop :=
  ∃ fv, clusterFilterKV t = some ("tags", fv) ∧ (filterTagsSplit fv).isSome = true

def TagOnlyTemplate (t : ClusterTemplate) : Prop :=
  TagFilterOK t ∧ ∀ spec ∈ t.specs, TagSelectorOK spec

theorem filterTagsIdx_congr (a b : List Node) (hs : SimNodes a b)
    (fkey fval : String) :
    ∀ idxs, filterTagsIdx a fkey fval idxs = filterTagsIdx b fkey fval idxs := by
  intro idxs
  induction idxs with
  | nil => simp [filterTagsIdx]
  | cons i rest ih =>
    have htags : nodeTags (nodeAt a i) = nodeTags (nodeAt b i) := by
      simp [nodeTags, (hs.2 i).1, (hs.2 i).2.1]
    simp only [filterTagsIdx, htags, ih]

theorem filterIdx_tags_congr (a b : List Node) (hs : SimNodes a b)
    (idxs : List Nat) (fv : String) :
    filterIdx a idxs "tags" fv = filterIdx b idxs "tags" fv := by
  simp only [filterIdx]
  match hsplit : filterTagsSplit fv with
  | none => rfl
  | some TagSplit.bad => rfl
  | some (TagSplit.kv fkey fval) =>
    simp [filterTagsIdx_congr a b hs fkey fval idxs]

theorem matchSpecIdx_congr (a b : List Node) (hs : SimNodes a b)
    (cands : List Nat) (spec : NodeSpec) (hok : TagSelectorOK spec) :
    matchSpecIdx a cands spec = matchSpecIdx b cands spec := by
  obtain ⟨fv, hfv, _⟩ := hok
  simp only [matchSpecIdx, hfv]
  exact filterIdx_tags_congr a b hs cands fv

theorem filterTagsIdx_isSome (st : List Node) (fkey fval : String) :
    ∀ idxs, (∀ i ∈ idxs, (nodeAt st i).hydrated = true) →
      ∃ res, filterTagsIdx st fkey fval idxs = some res := by
  intro idxs
  induction idxs with
  | nil => intro _; exact ⟨[], rfl⟩
  | cons i rest ih =>
    intro hh
    obtain ⟨res, hres⟩ := ih (fun j hj => hh j (by simp [hj]))
    have ht : nodeTags (nodeAt st i) = some (nodeAt st i).vmTags := by
      simp [nodeTags, hh i (by simp)]
    refine ⟨if filterTagsPred (nodeAt st i).vmTags fkey fval then i :: res else res, ?_⟩
    simp [filterTagsIdx, ht, hres]

theorem matchSpecIdx_isSome (st : List Node) (cands : List Nat) (spec : NodeSpec)
    (hok : TagSelectorOK spec)
    (hh : ∀ i ∈ cands, (nodeAt st i).hydrated = true) :
    ∃ m, matchSpecIdx st cands spec = some m := by
  obtain ⟨fv, hfv, hsome⟩ := hok
  simp only [matchSpecIdx, hfv]
  simp only [filterIdx]
  match hsplit : filterTagsSplit fv with
  | none => rw [hsplit] at hsome; simp at hsome
  | some TagSplit.bad => exact ⟨[], by simp⟩
  | some (TagSplit.kv fkey fval) =>
    obtain ⟨res, hres⟩ := filterTagsIdx_isSome st fkey fval cands hh
    exact ⟨res, by simp [hres]⟩

theorem nodeAt_ge_length (st : List Node) (i : Nat) (h : st.length ≤ i) :
    nodeAt st i = {} := by
  simp [nodeAt, List.getD_eq_getElem?_getD, List.getElem?_eq_none h]

theorem length_foldlSet (f : Node → Node) :
    ∀ (idxs : List Nat) (st : List Node),
      (idxs.foldl (fun s j => setNode s j f) st).length = st.length := by
  intro idxs
  induction idxs with
  | nil => intro st; simp
  | cons j rest ih =>
    intro st
    simp only [List.foldl_cons]
    rw [ih (setNode st j f), length_setNode]

theorem nodeAt_foldlSet (f : Node → Node) (hidem : ∀ n, f (f n) = f n) :
    ∀ (idxs : List Nat) (st : List Node) (i : Nat), i < st.length →
      nodeAt (idxs.foldl (fun s j => setNode s j f) st) i =
        if i ∈ idxs then f (nodeAt st i) else nodeAt st i := by
  intro idxs
  induction idxs with
  | nil => intro st i hi; simp
  | cons j rest ih =>
    intro st i hi
    simp only [List.foldl_cons]
    have hlen : i < (setNode st j f).length := by rw [length_setNode]; exact hi
    rw [ih (setNode st j f) i hlen]
    by_cases hij : i = j
    · subst hij
      rw [nodeAt_setNode_self st i f hi]
      by_cases hmem : i ∈ rest
      · simp [hmem, hidem]
      · simp [hmem]
    · rw [nodeAt_setNode_other st j i f hij]
      by_cases hmem : i ∈ rest
      · simp [hmem, hij]
      · simp [hmem, hij]

theorem foldlSet_immut (f : Node → Node)
    (hf : ∀ n, (f n).hydrated = n.hydrated ∧ (f n).vmTags = n.vmTags ∧
      (f n).key = n.key ∧ (f n).vmProps = n.vmProps)
    (hidem : ∀ n, f (f n) = f n)
    (idxs : List Nat) (st : List Node) (i : Nat) :
    (nodeAt (idxs.foldl (fun s j => setNode s j f) st) i).hydrated =
      (nodeAt st i).hydrated ∧
    (nodeAt (idxs.foldl (fun s j => setNode s j f) st) i).vmTags =
      (nodeAt st i).vmTags ∧
    (nodeAt (idxs.foldl (fun s j => setNode s j f) st) i).key =
      (nodeAt st i).key ∧
    (nodeAt (idxs.foldl (fun s j => setNode s j f) st) i).vmProps =
      (nodeAt st i).vmProps := by
  by_cases hi : i < st.length
  · rw [nodeAt_foldlSet f hidem idxs st i hi]
    by_cases hmem : i ∈ idxs
    · simp only [hmem, if_pos trivial, if_true]
      exact hf (nodeAt st i)
    · simp [hmem]
  · have h1 : nodeAt st i = {} := nodeAt_ge_length st i (Nat.le_of_not_lt hi)
    have h2 : nodeAt (idxs.foldl (fun s j => setNode s j f) st) i = {} := by
      refine nodeAt_ge_length _ i ?_
      rw [length_foldlSet]
      exact Nat.le_of_not_lt hi
    rw [h1, h2]
    exact ⟨rfl, rfl, rfl, rfl⟩

theorem SimNodes_refl (a : List Node) : SimNodes a a :=
  ⟨rfl, fun _ => ⟨rfl, rfl, rfl, rfl⟩⟩

theorem SimNodes_symm {a b : List Node} (h : SimNodes a b) : SimNodes b a :=
  ⟨h.1.symm, fun i => ⟨(h.2 i).1.symm, (h.2 i).2.1.symm, (h.2 i).2.2.1.symm,
    (h.2 i).2.2.2.symm⟩⟩

theorem SimNodes_trans {a b c : List Node} (h1 : SimNodes a b) (h2 : SimNodes b c) :
    SimNodes a c :=
  ⟨h1.1.trans h2.1, fun i =>
    ⟨(h1.2 i).1.trans (h2.2 i).1, (h1.2 i).2.1.trans (h2.2 i).2.1,
     (h1.2 i).2.2.1.trans (h2.2 i).2.2.1, (h1.2 i).2.2.2.trans (h2.2 i).2.2.2⟩⟩

theorem SimNodes_foldlSet (f : Node → Node)
    (hf : ∀ n, (f n).hydrated = n.hydrated ∧ (f n).vmTags = n.vmTags ∧
      (f n).key = n.key ∧ (f n).vmProps = n.vmProps)
    (hidem : ∀ n, f (f n) = f n)
    (idxs : List Nat) (st : List Node) :
    SimNodes st (idxs.foldl (fun s j => setNode s j f) st) :=
  ⟨(length_foldlSet f idxs st).symm, fun i =>
    ⟨(foldlSet_immut f hf hidem idxs st i).1.symm,
     (foldlSet_immut f hf hidem idxs st i).2.1.symm,
     (foldlSet_immut f hf hidem idxs st i).2.2.1.symm,
     (foldlSet_immut f hf hidem idxs st i).2.2.2.symm⟩⟩

/-- The evolution relation of one mutable field across a pair of
parallel passes: either the two runs have written the same value, or
neither run has touched the field yet. -/
def FieldRel {α : Type} (x0 y0 x1 y1 : α) : Prop :=
  x1 = y1 ∨ (x1 = x0 ∧ y1 = y0)

theorem FieldRel_refl {α : Type} (x0 y0 : α) : FieldRel x0 y0 x0 y0 :=
  Or.inr ⟨rfl, rfl⟩

theorem FieldRel_trans {α : Type} {x0 y0 x1 y1 x2 y2 : α}
    (h1 : FieldRel x0 y0 x1 y1) (h2 : FieldRel x1 y1 x2 y2) :
    FieldRel x0 y0 x2 y2 := by
  rcases h2 with h2 | ⟨h2a, h2b⟩
  · exact Or.inl h2
  · rcases h1 with h1 | ⟨h1a, h1b⟩
    · exact Or.inl (by rw [h2a, h2b, h1])
    · exact Or.inr ⟨h2a.trans h1a, h2b.trans h1b⟩

/-- Pointwise field evolution of the four resolver-assigned fields
across two parallel passes starting from `a` and `b`. -/
def FieldEvo (a b a1 b1 : List Node) : Prop :=
  ∀ i,
    FieldRel (nodeAt a i).name (nodeAt b i).name
      (nodeAt a1 i).name (nodeAt b1 i).name ∧
    FieldRel (nodeAt a i).clusterName (nodeAt b i).clusterName
      (nodeAt a1 i).clusterName (nodeAt b1 i).clusterName ∧
    FieldRel (nodeAt a i).username (nodeAt b i).username
      (nodeAt a1 i).username (nodeAt b1 i).username ∧
    FieldRel (nodeAt a i).keyfile (nodeAt b i).keyfile
      (nodeAt a1 i).keyfile (nodeAt b1 i).keyfile

theorem FieldEvo_refl (a b : List Node) : FieldEvo a b a b :=
  fun _ => ⟨FieldRel_refl _ _, FieldRel_refl _ _, FieldRel_refl _ _, FieldRel_refl _ _⟩

theorem FieldEvo_trans {a b a1 b1 a2 b2 : List Node}
    (h1 : FieldEvo a b a1 b1) (h2 : FieldEvo a1 b1 a2 b2) :
    FieldEvo a b a2 b2 :=
  fun i =>
    ⟨FieldRel_trans (h1 i).1 (h2 i).1,
     FieldRel_trans (h1 i).2.1 (h2 i).2.1,
     FieldRel_trans (h1 i).2.2.1 (h2 i).2.2.1,
     FieldRel_trans (h1 i).2.2.2 (h2 i).2.2.2⟩

theorem FieldEvo_stamp (cn : String) (idxs : List Nat) (a b : List Node)
    (hlen : a.length = b.length) :
    FieldEvo a b
      (idxs.foldl (fun s j => setNode s j (fun n => { n with clusterName := cn })) a)
      (idxs.foldl (fun s j => setNode s j (fun n => { n with clusterName := cn })) b) := by
  intro i
  by_cases hi : i < a.length
  · have hib : i < b.length := hlen ▸ hi
    rw [nodeAt_foldlSet (fun n => { n with clusterName := cn }) (fun n => rfl) idxs a i hi,
        nodeAt_foldlSet (fun n => { n with clusterName := cn }) (fun n => rfl) idxs b i hib]
    by_cases hmem : i ∈ idxs
    · simp only [hmem, if_pos trivial, if_true]
      exact ⟨Or.inr ⟨rfl, rfl⟩, Or.inl rfl, Or.inr ⟨rfl, rfl⟩, Or.inr ⟨rfl, rfl⟩⟩
    · simp only [hmem, if_false, if_neg hmem]
      exact FieldEvo_refl a b i
  · have hib : ¬ i < b.length := by rw [← hlen]; exact hi
    have ha2 : nodeAt (idxs.foldl (fun s j => setNode s j (fun n => { n with clusterName := cn })) a) i = {} := by
      refine nodeAt_ge_length _ i ?_; rw [length_foldlSet]; exact Nat.le_of_not_lt hi
    have hb2 : nodeAt (idxs.foldl (fun s j => setNode s j (fun n => { n with clusterName := cn })) b) i = {} := by
      refine nodeAt_ge_length _ i ?_; rw [length_foldlSet]; exact Nat.le_of_not_lt hib
    rw [ha2, hb2]
    exact ⟨Or.inl rfl, Or.inl rfl, Or.inl rfl, Or.inl rfl⟩

theorem FieldEvo_assignAll (cn : String) (spec : NodeSpec) (m : List Nat)
    (a b : List Node) (hlen : a.length = b.length) :
    FieldEvo a b (assignAll cn spec a m) (assignAll cn spec b m) := by
  intro i
  by_cases hi : i < a.length
  · have hib : i < b.length := hlen ▸ hi
    rw [nodeAt_assignAll cn spec m a i hi, nodeAt_assignAll cn spec m b i hib]
    by_cases hmem : i ∈ m
    · simp only [hmem, if_pos trivial, if_true]
      refine ⟨Or.inl ((assignSpec_name cn spec _).trans (assignSpec_name cn spec _).symm),
        Or.inl ((assignSpec_clusterName cn spec _).trans (assignSpec_clusterName cn spec _).symm),
        ?_, ?_⟩
      · rw [FieldRel, assignSpec_username, assignSpec_username]
        rcases hu : spec.username with _ | u
        · simp
        · by_cases hu0 : u = "" <;> simp [hu0]
      · rw [FieldRel, assignSpec_keyfile, assignSpec_keyfile]
        rcases hk : spec.keyfile with _ | k
        · simp
        · by_cases hk0 : k = "" <;> simp [hk0]
    · simp only [hmem, if_false, if_neg hmem]
      exact FieldEvo_refl a b i
  · have hib : ¬ i < b.length := by rw [← hlen]; exact hi
    have ha2 : nodeAt (assignAll cn spec a m) i = {} := by
      refine nodeAt_ge_length _ i ?_; rw [length_assignAll]; exact Nat.le_of_not_lt hi
    have hb2 : nodeAt (assignAll cn spec b m) i = {} := by
      refine nodeAt_ge_length _ i ?_; rw [length_assignAll]; exact Nat.le_of_not_lt hib
    rw [ha2, hb2]
    exact ⟨Or.inl rfl, Or.inl rfl, Or.inl rfl, Or.inl rfl⟩

theorem assignAll_immut (cn : String) (spec : NodeSpec) (m : List Nat)
    (st : List Node) (i : Nat) :
    (nodeAt (assignAll cn spec st m) i).hydrated = (nodeAt st i).hydrated ∧
    (nodeAt (assignAll cn spec st m) i).vmTags = (nodeAt st i).vmTags ∧
    (nodeAt (assignAll cn spec st m) i).key = (nodeAt st i).key ∧
    (nodeAt (assignAll cn spec st m) i).vmProps = (nodeAt st i).vmProps :=
  foldlSet_immut (assignSpec cn spec)
    (fun n => ⟨(assignSpec_immut cn spec n).1, (assignSpec_immut cn spec n).2.1,
      (assignSpec_immut cn spec n).2.2.2, (assignSpec_immut cn spec n).2.2.1⟩)
    (assignSpec_idem cn spec) m st i

theorem SimNodes_assignAll (cn : String) (spec : NodeSpec) (m : List Nat)
    (st : List Node) : SimNodes st (assignAll cn spec st m) :=
  SimNodes_foldlSet (assignSpec cn spec)
    (fun n => ⟨(assignSpec_immut cn spec n).1, (assignSpec_immut cn spec n).2.1,
      (assignSpec_immut cn spec n).2.2.2, (assignSpec_immut cn spec n).2.2.1⟩)
    (assignSpec_idem cn spec) m st

theorem processSpecs_immut (cn : String) (cands : List Nat) :
    ∀ (specs : List NodeSpec) (st st2 : List Node) (es : List Entry),
      processSpecs cn cands specs st = some (st2, es) →
      SimNodes st st2 := by
  intro specs
  induction specs with
  | nil =>
    intro st st2 es h
    simp only [processSpecs] at h
    obtain ⟨h1, _⟩ := Prod.mk.injEq .. ▸ Option.some.inj h
    subst h1
    exact SimNodes_refl st
  | cons spec rest ih =>
    intro st st2 es h
    simp only [processSpecs] at h
    match hm : matchSpecIdx st cands spec with
    | none => rw [hm] at h; dsimp only at h; exact absurd h (by simp)
    | some matched =>
      rw [hm] at h; dsimp only at h
      by_cases hemp : matched.isEmpty
      · rw [if_pos hemp] at h
        match hrec : processSpecs cn cands rest st with
        | none => rw [hrec] at h; dsimp only at h; exact absurd h (by simp)
        | some (st3, es3) =>
          rw [hrec] at h; dsimp only at h
          obtain ⟨h1, _⟩ := Prod.mk.injEq .. ▸ Option.some.inj h
          subst h1
          exact ih st st3 es3 hrec
      · rw [if_neg hemp] at h
        match hrec : processSpecs cn cands rest (assignAll cn spec st matched) with
        | none => rw [hrec] at h; dsimp only at h; exact absurd h (by simp)
        | some (st3, es3) =>
          rw [hrec] at h; dsimp only at h
          obtain ⟨h1, _⟩ := Prod.mk.injEq .. ▸ Option.some.inj h
          subst h1
          exact SimNodes_trans (SimNodes_assignAll cn spec matched st)
            (ih (assignAll cn spec st matched) st3 es3 hrec)

/-- The heart of the idempotence argument: two parallel runs of the
per-spec reconciliation over immutably-similar node states produce the
same group entries, stay similar, and evolve the mutable fields in
lock-step. -/
theorem processSpecs_sim (cn : String) (cands : List Nat) :
    ∀ (specs : List NodeSpec) (a b : List Node),
      SimNodes a b →
      (∀ spec ∈ specs, TagSelectorOK spec) →
      ∀ (a2 : List Node) (esA : List Entry),
        processSpecs cn cands specs a = some (a2, esA) →
        ∃ b2, processSpecs cn cands specs b = some (b2, esA) ∧
          SimNodes a2 b2 ∧ FieldEvo a b a2 b2 := by
  intro specs
  induction specs with
  | nil =>
    intro a b hs _ a2 esA h
    simp only [processSpecs] at h
    obtain ⟨h1, h2⟩ := Prod.mk.injEq .. ▸ Option.some.inj h
    subst h1; subst h2
    exact ⟨b, rfl, hs, FieldEvo_refl a b⟩
  | cons spec rest ih =>
    intro a b hs hok a2 esA h
    have hokh : TagSelectorOK spec := hok spec (by simp)
    have hokr : ∀ s ∈ rest, TagSelectorOK s := fun s hsm => hok s (by simp [hsm])
    simp only [processSpecs] at h ⊢
    match hm : matchSpecIdx a cands spec with
    | none => rw [hm] at h; dsimp only at h; exact absurd h (by simp)
    | some matched =>
      rw [hm] at h; dsimp only at h
      have hmb : matchSpecIdx b cands spec = some matched := by
        rw [← matchSpecIdx_congr a b hs cands spec hokh]; exact hm
      rw [hmb]; dsimp only
      by_cases hemp : matched.isEmpty
      · rw [if_pos hemp] at h ⊢
        match hrec : processSpecs cn cands rest a with
        | none => rw [hrec] at h; dsimp only at h; exact absurd h (by simp)
        | some (st3, es3) =>
          rw [hrec] at h; dsimp only at h
          obtain ⟨h1, h2⟩ := Prod.mk.injEq .. ▸ Option.some.inj h
          subst h1; subst h2
          obtain ⟨b2, hb2, hsim2, hevo2⟩ := ih a b hs hokr st3 es3 hrec
          rw [hb2]; dsimp only
          exact ⟨b2, rfl, hsim2, hevo2⟩
      · rw [if_neg hemp] at h ⊢
        match hrec : processSpecs cn cands rest (assignAll cn spec a matched) with
        | none => rw [hrec] at h; dsimp only at h; exact absurd h (by simp)
        | some (st3, es3) =>
          rw [hrec] at h; dsimp only at h
          obtain ⟨h1, h2⟩ := Prod.mk.injEq .. ▸ Option.some.inj h
          subst h1; subst h2
          have hsim1 : SimNodes (assignAll cn spec a matched) (assignAll cn spec b matched) :=
            SimNodes_trans (SimNodes_symm (SimNodes_assignAll cn spec matched a))
              (SimNodes_trans hs (SimNodes_assignAll cn spec matched b))
          obtain ⟨b2, hb2, hsim2, hevo2⟩ := ih _ _ hsim1 hokr st3 es3 hrec
          rw [hb2]; dsimp only
          exact ⟨b2, rfl, hsim2,
            FieldEvo_trans (FieldEvo_assignAll cn spec matched a b hs.1) hevo2⟩

theorem processSpecs_isSome (cn : String) (cands : List Nat) :
    ∀ (specs : List NodeSpec) (st : List Node),
      (∀ spec ∈ specs, TagSelectorOK spec) →
      (∀ i ∈ cands, (nodeAt st i).hydrated = true) →
      ∃ r, processSpecs cn cands specs st = some r := by
  intro specs
  induction specs with
  | nil => intro st _ _; exact ⟨(st, []), rfl⟩
  | cons spec rest ih =>
    intro st hok hh
    obtain ⟨matched, hm⟩ :=
      matchSpecIdx_isSome st cands spec (hok spec (by simp)) hh
    have hokr : ∀ s ∈ rest, TagSelectorOK s := fun s hsm => hok s (by simp [hsm])
    simp only [processSpecs, hm]
    by_cases hemp : matched.isEmpty
    · obtain ⟨⟨st3, es3⟩, hrec⟩ := ih st hokr hh
      rw [if_pos hemp, hrec]
      exact ⟨(st3, Entry.absent (mkAbsentNode cn spec) :: es3), rfl⟩
    · have hh2 : ∀ i ∈ cands, (nodeAt (assignAll cn spec st matched) i).hydrated = true :=
        fun i hi => (assignAll_immut cn spec matched st i).1.trans (hh i hi)
      obtain ⟨⟨st3, es3⟩, hrec⟩ := ih (assignAll cn spec st matched) hokr hh2
      rw [if_neg hemp, hrec]
      exact ⟨(st3, matched.map Entry.inv ++ es3), rfl⟩

theorem nodeExt (n m : Node)
    (h1 : n.name = m.name) (h2 : n.clusterName = m.clusterName)
    (h3 : n.username = m.username) (h4 : n.keyfile = m.keyfile)
    (h5 : n.key = m.key) (h6 : n.hydrated = m.hydrated)
    (h7 : n.vmTags = m.vmTags) (h8 : n.vmProps = m.vmProps) : n = m := by
  cases n; cases m; simp_all

theorem listExtNodeAt (a b : List Node) (hlen : a.length = b.length)
    (h : ∀ i, nodeAt a i = nodeAt b i) : a = b := by
  apply List.ext_getElem hlen
  intro i h1 h2
  have hh := h i
  rwa [nodeAt, nodeAt, List.getD_eq_getElem a _ h1, List.getD_eq_getElem b _ h2] at hh

theorem filterIdx_tags_isSome (st : List Node) (idxs : List Nat) (fv : String)
    (hsplit : (filterTagsSplit fv).isSome = true)
    (hh : ∀ i ∈ idxs, (nodeAt st i).hydrated = true) :
    ∃ res, filterIdx st idxs "tags" fv = some res := by
  simp only [filterIdx]
  match hs : filterTagsSplit fv with
  | none => rw [hs] at hsplit; simp at hsplit
  | some TagSplit.bad => exact ⟨[], by simp⟩
  | some (TagSplit.kv fkey fval) =>
    obtain ⟨res, hres⟩ := filterTagsIdx_isSome st fkey fval idxs hh
    exact ⟨res, by simp [hres]⟩

theorem processCluster_eq (t : ClusterTemplate) (st : List Node) (fv : String)
    (cands : List Nat) (st2 : List Node) (es : List Entry)
    (hfv : clusterFilterKV t = some ("tags", fv))
    (hcands : filterIdx st (List.range st.length) "tags" fv = some cands)
    (hps : processSpecs t.name cands t.specs
      (cands.foldl (fun s i => setNode s i (fun n => { n with clusterName := t.name })) st) =
      some (st2, es)) :
    processCluster t st =
      some (st2, es ++ (cands.filter (fun i => (nodeAt st2 i).name = "")).map Entry.inv) := by
  simp only [processCluster, hfv, hcands, hps]

/-- A pass over a tag-only template whose inventory is fully hydrated
succeeds, and a second pass over its output state produces the same
state and the same group entries. -/
theorem processCluster_fixpoint (t : ClusterTemplate) (l : List Node)
    (htag : TagOnlyTemplate t) (hhyd : ∀ n ∈ l, n.hydrated = true) :
    ∃ A es, processCluster t l = some (A, es) ∧
      processCluster t A = some (A, es) ∧ A.length = l.length := by
  obtain ⟨fv, hfv, hsplit⟩ := htag.1
  have hnode : ∀ i, i < l.length → (nodeAt l i).hydrated = true := by
    intro i hi
    have hmemi : nodeAt l i ∈ l := by
      rw [nodeAt, List.getD_eq_getElem l _ hi]
      exact List.getElem_mem hi
    exact hhyd _ hmemi
  have hrange : ∀ i ∈ List.range l.length, (nodeAt l i).hydrated = true :=
    fun i hi => hnode i (List.mem_range.mp hi)
  obtain ⟨cands, hcands⟩ :=
    filterIdx_tags_isSome l (List.range l.length) fv hsplit hrange
  have hcsub : ∀ i ∈ cands, i ∈ List.range l.length :=
    filterIdx_subset l _ "tags" fv cands hcands
  have hP1sim : SimNodes l
      (cands.foldl (fun s i => setNode s i (fun n => { n with clusterName := t.name })) l) :=
    SimNodes_foldlSet (fun n => { n with clusterName := t.name })
      (fun n => ⟨rfl, rfl, rfl, rfl⟩) (fun n => rfl) cands l
  have hP1hyd : ∀ i ∈ cands,
      (nodeAt (cands.foldl (fun s i => setNode s i (fun n => { n with clusterName := t.name })) l) i).hydrated = true := by
    intro i hi
    rw [← (hP1sim.2 i).1]
    exact hnode i (List.mem_range.mp (hcsub i hi))
  obtain ⟨⟨A, es1⟩, hps⟩ :=
    processSpecs_isSome t.name cands t.specs _ htag.2 hP1hyd
  have hP1A : SimNodes
      (cands.foldl (fun s i => setNode s i (fun n => { n with clusterName := t.name })) l) A :=
    processSpecs_immut t.name cands t.specs _ A es1 hps
  have hlA : SimNodes l A := SimNodes_trans hP1sim hP1A
  have hAlen : A.length = l.length := hlA.1.symm
  have hcandsA : filterIdx A (List.range A.length) "tags" fv = some cands := by
    rw [hAlen, ← filterIdx_tags_congr l A hlA (List.range l.length) fv]
    exact hcands
  have hP2sim : SimNodes
      (cands.foldl (fun s i => setNode s i (fun n => { n with clusterName := t.name })) l)
      (cands.foldl (fun s i => setNode s i (fun n => { n with clusterName := t.name })) A) :=
    SimNodes_trans (SimNodes_symm hP1sim)
      (SimNodes_trans hlA
        (SimNodes_foldlSet (fun n => { n with clusterName := t.name })
          (fun n => ⟨rfl, rfl, rfl, rfl⟩) (fun n => rfl) cands A))
  obtain ⟨B, hpsB, hAB, hevo2⟩ :=
    processSpecs_sim t.name cands t.specs _ _ hP2sim htag.2 A es1 hps
  have hevo : FieldEvo l A A B :=
    FieldEvo_trans (FieldEvo_stamp t.name cands l A hlA.1) hevo2
  have hBA : B = A := by
    apply listExtNodeAt B A (hAB.1.symm.trans hAlen ▸ hAB.1.symm)
    intro i
    obtain ⟨e1, e2, e3, e4⟩ := hevo i
    have hname : (nodeAt B i).name = (nodeAt A i).name := by
      rcases e1 with e | ⟨ea, eb⟩
      · exact e.symm
      · exact eb
    have hcl : (nodeAt B i).clusterName = (nodeAt A i).clusterName := by
      rcases e2 with e | ⟨ea, eb⟩
      · exact e.symm
      · exact eb
    have hun : (nodeAt B i).username = (nodeAt A i).username := by
      rcases e3 with e | ⟨ea, eb⟩
      · exact e.symm
      · exact eb
    have hkf : (nodeAt B i).keyfile = (nodeAt A i).keyfile := by
      rcases e4 with e | ⟨ea, eb⟩
      · exact e.symm
      · exact eb
    exact nodeExt _ _ hname hcl hun hkf (hAB.2 i).2.2.1.symm (hAB.2 i).1.symm
      (hAB.2 i).2.1.symm (hAB.2 i).2.2.2.symm
  rw [hBA] at hpsB
  exact ⟨A, es1 ++ (cands.filter (fun i => (nodeAt A i).name = "")).map Entry.inv,
    processCluster_eq t l fv cands A es1 hfv hcands hps,
    processCluster_eq t A fv cands A es1 hfv hcandsA hpsB, hAlen⟩

theorem cacheSet_entry_key (c : List (String × List Node)) (r : String)
    (ns : List Node) : ∀ p ∈ cacheSet c r ns, p.1 = r → p = (r, ns) := by
  intro p hp hpr
  simp only [cacheSet] at hp
  by_cases hf : (c.find? (fun q => q.1 = r)).isSome = true
  · rw [if_pos hf] at hp
    obtain ⟨q, hq, hqe⟩ := List.mem_map.mp hp
    by_cases hqr : q.1 = r
    · rw [if_pos hqr] at hqe; exact hqe.symm
    · rw [if_neg hqr] at hqe; exact absurd (hqe ▸ hpr) hqr
  · rw [if_neg hf] at hp
    rcases List.mem_append.mp hp with hc | hs
    · have hnone : c.find? (fun q => q.1 = r) = none :=
        Option.not_isSome_iff_eq_none.mp (by simpa using hf)
      have := List.find?_eq_none.mp hnone p hc
      simp [hpr] at this
    · simpa using hs

theorem cacheSet_find_isSome (c : List (String × List Node)) (r : String)
    (ns : List Node) :
    ((cacheSet c r ns).find? (fun p => p.1 = r)).isSome = true := by
  have h := cacheLookup_cacheSet c r ns
  simp only [cacheLookup] at h
  obtain ⟨p, hp, _⟩ := Option.map_eq_some'.mp h
  simp [hp]

theorem cacheSet_cacheSet (c : List (String × List Node)) (r : String)
    (ns : List Node) : cacheSet (cacheSet c r ns) r ns = cacheSet c r ns := by
  have hsome := cacheSet_find_isSome c r ns
  have hmem := cacheSet_entry_key c r ns
  generalize hC : cacheSet c r ns = C at hsome hmem
  simp only [cacheSet, hsome, if_pos trivial, if_true]
  have hid : C.map (fun p => if p.1 = r then (r, ns) else p) = C.map id := by
    apply List.map_congr_left
    intro p hp
    by_cases h : p.1 = r
    · rw [if_pos h, id_eq]; exact (hmem p hp h).symm
    · rw [if_neg h, id_eq]
  rw [hid, List.map_id]

theorem strLtB_asymm : ∀ (a b : List Char), strLtB a b = true → strLtB b a = false
  | [], [] => by intro h; simp [strLtB] at h
  | [], _ :: _ => fun _ => rfl
  | _ :: _, [] => by intro h; simp [strLtB] at h
  | a :: as, b :: bs => by
    intro h
    simp only [strLtB] at h ⊢
    by_cases h1 : a.val < b.val
    · have hn : a.val.toNat < b.val.toNat := UInt32.lt_def.mp h1
      rw [if_neg (fun hc => by
            have hh : b.val.toNat < a.val.toNat := UInt32.lt_def.mp hc; omega),
          if_neg (fun hc => by have := congrArg UInt32.toNat hc; omega)]
    · rw [if_neg h1] at h
      by_cases h2 : a.val = b.val
      · rw [if_pos h2] at h
        have hn := congrArg UInt32.toNat h2
        rw [if_neg (fun hc => by
              have hh : b.val.toNat < a.val.toNat := UInt32.lt_def.mp hc; omega),
            if_pos h2.symm]
        exact strLtB_asymm as bs h
      · rw [if_neg h2] at h
        exact absurd h (by simp)

theorem strLtB_nlt_trans : ∀ (a b c : List Char),
    strLtB a b = false → strLtB b c = false → strLtB a c = false
  | a, [], c => by
    intro _ h2
    cases c with
    | nil => cases a <;> rfl
    | cons z zs => simp [strLtB] at h2
  | [], _ :: _, _ => by
    intro h1 _
    simp [strLtB] at h1
  | _ :: _, _ :: _, [] => fun _ _ => rfl
  | x :: xs, y :: ys, z :: zs => by
    intro h1 h2
    simp only [strLtB] at h1 h2 ⊢
    by_cases hxy : x.val < y.val
    · rw [if_pos hxy] at h1; exact absurd h1 (by simp)
    · rw [if_neg hxy] at h1
      by_cases hyz : y.val < z.val
      · rw [if_pos hyz] at h2; exact absurd h2 (by simp)
      · rw [if_neg hyz] at h2
        have hxyn : ¬ x.val.toNat < y.val.toNat := fun hc => hxy (UInt32.lt_def.mpr hc)
        have hyzn : ¬ y.val.toNat < z.val.toNat := fun hc => hyz (UInt32.lt_def.mpr hc)
        rw [if_neg (fun hc : x.val < z.val => by
          have hh : x.val.toNat < z.val.toNat := UInt32.lt_def.mp hc; omega)]
        by_cases hxz : x.val = z.val
        · rw [if_pos hxz]
          have hxzn := congrArg UInt32.toNat hxz
          have hxyv : x.val = y.val := UInt32.toNat.inj (by omega)
          have hyzv : y.val = z.val := UInt32.toNat.inj (by omega)
          rw [if_pos hxyv] at h1
          rw [if_pos hyzv] at h2
          exact strLtB_nlt_trans xs ys zs h1 h2
        · rw [if_neg hxz]

theorem strLt_asymm (a b : String) (h : strLt a b = true) : strLt b a = false :=
  strLtB_asymm a.toList b.toList h

theorem strLt_nlt_trans (a b c : String) (h1 : strLt a b = false)
    (h2 : strLt b c = false) : strLt a c = false :=
  strLtB_nlt_trans a.toList b.toList c.toList h1 h2

theorem mem_insSorted (key : α → String) (x : α) :
    ∀ (l : List α) (y : α), y ∈ insSorted key x l ↔ y = x ∨ y ∈ l := by
  intro l
  induction l with
  | nil => intro y; simp [insSorted]
  | cons z zs ih =>
    intro y
    simp only [insSorted]
    by_cases h : strLt (key z) (key x) = true
    · rw [if_pos h]
      constructor
      · intro hy
        rcases List.mem_cons.mp hy with rfl | hy2
        · exact Or.inr (List.mem_cons_self _ _)
        · rcases (ih y).mp hy2 with rfl | hy3
          · exact Or.inl rfl
          · exact Or.inr (List.mem_cons_of_mem _ hy3)
      · intro hy
        rcases hy with rfl | hy2
        · exact List.mem_cons_of_mem _ ((ih y).mpr (Or.inl rfl))
        · rcases List.mem_cons.mp hy2 with rfl | hy3
          · exact List.mem_cons_self _ _
          · exact List.mem_cons_of_mem _ ((ih y).mpr (Or.inr hy3))
    · rw [if_neg h]
      exact List.mem_cons

theorem pairwise_insSorted (key : α → String) (x : α) :
    ∀ (l : List α), l.Pairwise (fun a b => strLt (key b) (key a) = false) →
      (insSorted key x l).Pairwise (fun a b => strLt (key b) (key a) = false) := by
  intro l
  induction l with
  | nil => intro _; simp [insSorted]
  | cons z zs ih =>
    intro hp
    rw [List.pairwise_cons] at hp
    obtain ⟨hz, hzs⟩ := hp
    simp only [insSorted]
    by_cases h : strLt (key z) (key x) = true
    · rw [if_pos h, List.pairwise_cons]
      refine ⟨fun y hy => ?_, ih hzs⟩
      rcases (mem_insSorted key x zs y).mp hy with rfl | hmem
      · exact strLt_asymm _ _ h
      · exact hz y hmem
    · rw [if_neg h, List.pairwise_cons]
      have hzx : strLt (key z) (key x) = false := Bool.eq_false_iff.mpr h
      refine ⟨fun y hy => ?_, List.pairwise_cons.mpr ⟨hz, hzs⟩⟩
      rcases List.mem_cons.mp hy with rfl | hmem
      · exact hzx
      · exact strLt_nlt_trans (key y) (key z) (key x) (hz y hmem) hzx

theorem ssortBy_pairwise (key : α → String) :
    ∀ (l : List α), (ssortBy key l).Pairwise (fun a b => strLt (key b) (key a) = false) := by
  intro l
  induction l with
  | nil => simp [ssortBy]
  | cons x xs ih => exact pairwise_insSorted key x (ssortBy key xs) ih

/-- A cluster configuration whose first specification selects by the
mutable `name` property while the second renames the shared inventory
node. -/
def c4XTemplate : ClusterTemplate :=
  { name := "web"
    region := "r"
    specs := [{ nodename := "y", selector := some "name=z" }, { nodename := "z" }] }

def c4XState : ClusterState :=
  { clusters := [c4XTemplate]
    curCluster := "web"
    region := "r"
    nodecache := [("r", [{ hydrated := true, vmTags := [("cluster", "web"), ("name", "z")] }])] }

/-- C4 counterexample: the cached node objects are mutated in place by
the pass, so a selector over the mutable `name` property changes its
answer between two consecutive resolutions against the unmodified
cache. The first resolution matches nothing for spec `y` (the cached
node's display name starts empty) and synthesizes an absent
placeholder; the second resolution runs after the shared node was
renamed to `z`, so `name=z` now matches the inventory node and the
returned lists differ. -/
theorem C4_name_selector_counterexample :
    (get_current_nodes c4XState).map (fun p => p.1) =
      some [Entry.absent { name := "y", clusterName := "web" }, Entry.inv 0] ∧
    ((get_current_nodes c4XState).bind (fun p => get_current_nodes p.2.st)).map
        (fun p => p.1) =
      some [Entry.inv 0, Entry.inv 0] := by
  constructor
  · decide
  · decide

/-- The result of a cache-hit resolution pass of a single selected
cluster: its group entries appended to the selected cluster's group,
the shared (mutated) node list, no provider fetch, and the cache entry
rewritten to alias the final node list. -/
def c4Result (s : ClusterState) (es : List Entry) (A : List Node) : ResolveResult :=
  { groups := groupsAppend (initGroups s) s.curCluster es
    nodes := A
    fetched := false
    st := { s with nodecache := cacheSet s.nodecache s.region A } }

/-- C4 (amended): with a current cluster selected whose template uses
only well-formed tag filters (cluster filter and every spec selector),
a non-empty cache entry for the region, and a fully hydrated cached
inventory, resolution is idempotent: the first call is answered from
the cache without a provider fetch, a second resolution against the
resulting state returns the identical flattened list and the identical
result (same node identities, cluster assignments, groups, cache), and
the flattened list is sorted by cluster name (non-descending, hence
stably identical across the two calls). -/
theorem C4_idempotent_resolution (s : ClusterState) (t : ClusterTemplate) (l : List Node)
    (hcur : s.curCluster ≠ "")
    (hlook : lookupTemplate s.clusters s.curCluster = some t)
    (htag : TagOnlyTemplate t)
    (hcache : cacheLookup s.nodecache s.region = some l) (hne : l ≠ [])
    (hhyd : ∀ n ∈ l, n.hydrated = true) :
    ∃ fl r1,
      get_current_nodes s = some (fl, r1) ∧
      r1.fetched = false ∧
      get_current_nodes r1.st = some (fl, r1) ∧
      fl.Pairwise (fun x y =>
        strLt (entryCluster r1.nodes y) (entryCluster r1.nodes x) = false) := by
  obtain ⟨A, es, hp1, hp2, hAlen⟩ := processCluster_fixpoint t l htag hhyd
  obtain ⟨hhit, hres0⟩ := cacheHit_of_entry s l hcache hne
  have hctp : clustersToProcess s = [s.curCluster] := by
    simp [clustersToProcess, hcur]
  have hpc1 : processClusters s.clusters [s.curCluster] (initGroups s) l =
      some (groupsAppend (initGroups s) s.curCluster es, A) := by
    simp only [processClusters, hlook, hp1]
  have h1 : get_current_nodes_by_cluster s = some (c4Result s es A) := by
    simp only [get_current_nodes_by_cluster, hctp, hres0, hpc1]
    rw [if_neg hcur]
    simp [c4Result, hhit]
  have hAne : A ≠ [] := by
    intro hA
    apply hne
    apply List.eq_nil_of_length_eq_zero
    rw [← hAlen, hA]
    rfl
  have hc2 : cacheLookup (c4Result s es A).st.nodecache (c4Result s es A).st.region =
      some A := cacheLookup_cacheSet s.nodecache s.region A
  obtain ⟨hhit2, hres02⟩ := cacheHit_of_entry (c4Result s es A).st A hc2 hAne
  have hctp2 : clustersToProcess (c4Result s es A).st = [s.curCluster] := by
    simp [clustersToProcess, c4Result, hcur]
  have hlook2 : lookupTemplate (c4Result s es A).st.clusters s.curCluster = some t := hlook
  have hig : initGroups (c4Result s es A).st = initGroups s := rfl
  have hpc2 : processClusters (c4Result s es A).st.clusters [s.curCluster]
      (initGroups s) A = some (groupsAppend (initGroups s) s.curCluster es, A) := by
    simp only [processClusters, hlook2, hp2]
  have hcur2 : ¬ (c4Result s es A).st.curCluster = "" := hcur
  have h2 : get_current_nodes_by_cluster (c4Result s es A).st = some (c4Result s es A) := by
    simp only [get_current_nodes_by_cluster, hctp2, hres02, hig, hpc2]
    rw [if_neg hcur2]
    simp [c4Result, cacheSet_cacheSet]
    exact hhit2
  refine ⟨ssortBy (entryCluster (c4Result s es A).nodes)
      (((c4Result s es A).groups).map Prod.snd).flatten,
    c4Result s es A, ?_, rfl, ?_, ?_⟩
  · simp only [get_current_nodes, h1]
  · simp only [get_current_nodes, h2]
  · exact ssortBy_pairwise (entryCluster (c4Result s es A).nodes) _

def c4WSpec1 : NodeSpec := { nodename := "w1", selector := some "tags=name:n1" }

def c4WSpec2 : NodeSpec := { nodename := "w2" }

def c4WTemplate : ClusterTemplate :=
  { name := "web"
    region := "r"
    specs := [c4WSpec1, c4WSpec2] }

def c4WNodes : List Node :=
  [{ hydrated := true, vmTags := [("cluster", "web"), ("name", "n1")] }]

def c4WState : ClusterState :=
  { clusters := [c4WTemplate]
    curCluster := "web"
    region := "r"
    nodecache := [("r", c4WNodes)] }

/-- Witness for the amended C4 at a concrete tag-only configuration:
one hydrated cached node, one spec matching it by tag and one spec
matching nothing. -/
theorem C4_idempotent_resolution_witness :
    ∃ fl r1,
      get_current_nodes c4WState = some (fl, r1) ∧
      r1.fetched = false ∧
      get_current_nodes r1.st = some (fl, r1) ∧
      fl.Pairwise (fun x y =>
        strLt (entryCluster r1.nodes y) (entryCluster r1.nodes x) = false) :=
  C4_idempotent_resolution c4WState c4WTemplate c4WNodes (by decide) (by decide)
    ⟨⟨"cluster:web", by decide, by decide⟩, by
      intro spec hsp
      have hsp2 : spec ∈ [c4WSpec1, c4WSpec2] := hsp
      rcases List.mem_cons.mp hsp2 with rfl | hsp3
      · exact ⟨"name:n1", by decide, by decide⟩
      · rcases List.mem_cons.mp hsp3 with rfl | hsp4
        · exact ⟨"name:w2", by decide, by decide⟩
        · exact absurd hsp4 (List.not_mem_nil spec)⟩
    (by decide) (by decide) (by decide)
